import Mathlib

/-!
Verification development for the `stacc` library of concurrent LIFO stacks.

Each Rust source file is shallowly embedded as a set of Lean structures and
executable functions.  Atomic operations are modelled by their sequential
(single-thread, no-interference) semantics; where a retry loop can actually
recur (the double-buffer variant's push/pop), the recursion is made explicit
with a fuel parameter.  Machine integers are modelled as `Nat`/`Int`, with
wrap-around written out as `% 2 ^ 64` where the source relies on it.
-/

set_option maxHeartbeats 1000000

namespace Stacc

/-- Model of `AtomicPop<T>` (src/stacc.rs, lines 12-47): a fixed-size slice of
possibly-uninitialized cells (`none` = uninitialized) plus a signed length
counter (`AtomicIsize`). -/
structure AtomicPop (T : Type) where
  slice : List (Option T)
  len : Int
deriving DecidableEq

/-- Model of `AtomicPush<T>` (src/stacc.rs, lines 49-88): same layout as
`AtomicPop`, but exposing only `push`. -/
structure AtomicPush (T : Type) where
  slice : List (Option T)
  len : Int
deriving DecidableEq

/-- `AtomicPop::pop` (src/stacc.rs, lines 29-46): `fetch_sub(1)` on the length,
clamp back to `0` (`fetch_max`) when the length was exactly `0`, report empty
when the observed length was `<= 0`, otherwise read cell `len - 1`.  The cell
is not cleared: the Rust code moves the value out with `ptr::read`.

The outer `Option` of the result is the `Option<T>` the Rust function
returns (`none` = empty).  Because the model's cells are `Option T` with
`none` standing for uninitialized memory, a successful pop yields the raw
cell contents as an `Option T`; it is `some _` in every execution that only
reads previously written cells, which is what the Rust code relies on. -/
def AtomicPop.pop {T} (s : AtomicPop T) : Option (Option T) × AtomicPop T :=
  let len0 := s.len
  let s1 : AtomicPop T := { s with len := s.len - 1 }
  let s2 := if len0 = 0 then { s1 with len := max s1.len 0 } else s1
  if len0 ≤ 0 then (none, s2)
  else (some (s2.slice.getD (len0 - 1).toNat none), s2)

/-- `AtomicPush::push` (src/stacc.rs, lines 66-87): `fetch_add(1)` on the
length, clamp back to `maxlen` (`fetch_min`) when the length was exactly
`maxlen`, reject (returning the value) when the observed length was
`>= maxlen`, otherwise write the value into cell `oldlen`. -/
def AtomicPush.push {T} (s : AtomicPush T) (x : T) : Option T × AtomicPush T :=
  let maxlen : Int := s.slice.length
  let oldlen := s.len
  let s1 : AtomicPush T := { s with len := s.len + 1 }
  let s2 := if oldlen = maxlen then { s1 with len := min s1.len maxlen } else s1
  if oldlen ≥ maxlen then (some x, s2)
  else (none, { s2 with slice := s2.slice.set oldlen.toNat (some x) })

/-- Model of `StaccInner<T>` (src/stacc.rs, lines 90-94).  The `swap_lock` and
the reader/writer locks only matter under concurrency; in this sequential
embedding `try_lock` always succeeds, so they carry no state. -/
structure StaccInner (T : Type) where
  poppers : AtomicPop T
  pushers : AtomicPush T
deriving DecidableEq

/-- `StaccInner::swap_stacks` (src/stacc.rs, lines 105-118): swaps the `slice`
and `len` fields of the two buffers. -/
def StaccInner.swap_stacks {T} (s : StaccInner T) : StaccInner T :=
  { poppers := ⟨s.pushers.slice, s.pushers.len⟩
    pushers := ⟨s.poppers.slice, s.poppers.len⟩ }

/-- The clamp `if len < 0 { 0 } else { len as usize }` used at src/stacc.rs
lines 130-134, 154-159 and 174-175. -/
def clampNat (i : Int) : Nat := if i < 0 then 0 else i.toNat

theorem clampNat_natCast (n : Nat) : clampNat (n : Int) = n := by
  simp [clampNat]

/-- `StaccInner::push` (src/stacc.rs, lines 120-144).  The Rust function calls
itself again after swapping the buffers; that recursion is modelled with an
explicit fuel parameter, `none` meaning the fuel ran out before the call
returned. -/
def StaccInner.push {T} : Nat → StaccInner T → T → Option (Option T × StaccInner T)
  | 0, _, _ => none
  | fuel+1, s, x =>
    match s.pushers.push x with
    | (none, p) => some (none, { s with pushers := p })
    | (some x', p) =>
      let s1 : StaccInner T := { s with pushers := p }
      let poppers_len := clampNat s1.poppers.len
      let poppers_maxlen := s1.poppers.slice.length
      if poppers_len ≠ poppers_maxlen then StaccInner.push fuel s1.swap_stacks x'
      else some (some x', s1)

/-- `StaccInner::pop` (src/stacc.rs, lines 146-168), with the same fuel
convention as `StaccInner.push`; a popped value is an `Option T` cell
content, following `AtomicPop.pop`. -/
def StaccInner.pop {T} : Nat → StaccInner T → Option (Option (Option T) × StaccInner T)
  | 0, _ => none
  | fuel+1, s =>
    match s.poppers.pop with
    | (some x, p) => some (some x, { s with poppers := p })
    | (none, p) =>
      let s1 : StaccInner T := { s with poppers := p }
      let pushers_len := clampNat s1.pushers.len
      if pushers_len ≠ 0 then StaccInner.pop fuel s1.swap_stacks
      else some (none, s1)

/-- `StaccInner::len` (src/stacc.rs, lines 170-178): sum of the two clamped
lengths. -/
def StaccInner.lenOp {T} (s : StaccInner T) : Nat :=
  clampNat s.pushers.len + clampNat s.poppers.len

/-- `Stacc::new(n)` (src/stacc.rs, lines 186-189): both buffers hold `n`
uninitialized cells and have length `0`. -/
def StaccInner.new (T : Type) (n : Nat) : StaccInner T :=
  ⟨⟨List.replicate n none, 0⟩, ⟨List.replicate n none, 0⟩⟩

/-- Push a list of values left-to-right, collecting each push's result. -/
def pushSeq {T} (fuel : Nat) : List T → StaccInner T → Option (List (Option T) × StaccInner T)
  | [], s => some ([], s)
  | x :: xs, s =>
    match StaccInner.push fuel s x with
    | none => none
    | some (r, s') =>
      match pushSeq fuel xs s' with
      | none => none
      | some (rs, s'') => some (r :: rs, s'')

/-- Pop `k` times in a row, collecting the results. -/
def popSeq {T} (fuel : Nat) : Nat → StaccInner T → Option (List (Option (Option T)) × StaccInner T)
  | 0, s => some ([], s)
  | k+1, s =>
    match StaccInner.pop fuel s with
    | none => none
    | some (r, s') =>
      match popSeq fuel k s' with
      | none => none
      | some (rs, s'') => some (r :: rs, s'')

end Stacc

/-- `usize` wrap-around modulus: `usize` values are modelled as `Nat` and
wrapping arithmetic is taken `% U64`. -/
def U64 : Nat := 2 ^ 64

namespace SpscQueue

/-- Model of `QueueInner<T>` (src/spsc_queue.rs, lines 7-13): two `usize`
indices and a 256-slot array of possibly-uninitialized cells (`none` =
uninitialized).  The fixed array size 256 appears as the hypothesis
`data.length = 256` in the theorems. -/
structure QueueInner (T : Type) where
  head : Nat
  tail : Nat
  data : List (Option T)
deriving DecidableEq

/-- `QueueInner::len` (src/spsc_queue.rs, lines 16-24):
`tail.wrapping_sub(head) & mask` with `mask = cap - 1`; `wrapping_sub` on
`usize` is `(tail + 2^64 - head) % 2^64` (sound for index values below
`2^64`, which the queue maintains since indices are always masked). -/
def QueueInner.len {T} (q : QueueInner T) : Nat :=
  let cap := q.data.length
  let mask := cap - 1
  ((q.tail + U64 - q.head) % U64) &&& mask

/-- `QueueProducer::push` (src/spsc_queue.rs, lines 91-114): compute
`newtail = tail.wrapping_add(1) & mask`; if it equals `head` the queue is
full and the value is returned unchanged; otherwise the value is written at
index `tail` and `tail` is advanced to `newtail`. -/
def QueueInner.push {T} (q : QueueInner T) (x : T) : Option T × QueueInner T :=
  let tail := q.tail
  let head := q.head
  let cap := q.data.length
  let mask := cap - 1
  let newtail := ((tail + 1) % U64) &&& mask
  if newtail = head then (some x, q)
  else (none, { q with data := q.data.set tail (some x), tail := newtail })

/-- `QueueConsumer::pop` (src/spsc_queue.rs, lines 55-75): empty when
`head = tail`, otherwise read index `head` and advance `head`.  As with the
other models, a successful pop returns the raw cell (`Option T`). -/
def QueueInner.pop {T} (q : QueueInner T) : Option (Option T) × QueueInner T :=
  let head := q.head
  let tail := q.tail
  if head = tail then (none, q)
  else
    let cap := q.data.length
    let mask := cap - 1
    let newhead := ((head + 1) % U64) &&& mask
    (some (q.data.getD head none), { q with head := newhead })

end SpscQueue

namespace StaccLockfree

/-- Model of `StaccInner<T>` (src/stacc_lockfree.rs, lines 31-35).  Heap
nodes are identified by `Nat` ids (Box addresses); `head` is the chain of
linked nodes reachable from the `head` pointer, top first, carrying each
node's payload.  Every node's `counter` is `0` whenever no pop attempt is
in flight; the counter discipline inside the pop retry loop is modelled
event-by-event by `popAttemptEvents` below. -/
structure StaccInner (T : Type) where
  head : List (Nat × T)
  len : Nat
  global_garbage : List Nat

/-- Model of the handle `Stacc<T>` (src/stacc_lockfree.rs, lines 116-119)
together with the allocator state: `alloc` is the next fresh Box address. -/
structure Stacc (T : Type) where
  inner : StaccInner T
  local_garbage : List Nat
  alloc : Nat

/-- `Stacc::new` (src/stacc_lockfree.rs, lines 122-127). -/
def Stacc.new (T : Type) : Stacc T := ⟨⟨[], 0, []⟩, [], 1⟩

/-- `Stacc::make_node` (src/stacc_lockfree.rs, lines 129-140): reuse the
most recently cached node (`Vec::pop` takes the last element) writing the
new payload into it, or allocate a fresh one. -/
def Stacc.make_node {T} (s : Stacc T) : Nat × Stacc T :=
  match s.local_garbage.getLast? with
  | some id => (id, { s with local_garbage := s.local_garbage.dropLast })
  | none => (s.alloc, { s with alloc := s.alloc + 1 })

/-- `StaccInner::push` (src/stacc_lockfree.rs, lines 97-113), sequential
collapse: the CAS succeeds on the first try, so the new node (with `next`
set to the old head) becomes the head; `len` is incremented
(`AtomicUsize`, wrapping). -/
def StaccInner.push {T} (inner : StaccInner T) (id : Nat) (x : T) : StaccInner T :=
  { inner with head := (id, x) :: inner.head, len := (inner.len + 1) % U64 }

/-- `StaccInner::pop` (src/stacc_lockfree.rs, lines 67-95), sequential
collapse: null head reports empty; otherwise the candidate's counter is
incremented, its `next` is read, the CAS succeeds, and `len` is
decremented.  The per-attempt counter discipline (including failed CAS
attempts under contention) is modelled by `popAttemptEvents`. -/
def StaccInner.pop {T} (inner : StaccInner T) : Option (Nat × T) × StaccInner T :=
  match inner.head with
  | [] => (none, inner)
  | (id, x) :: rest =>
    (some (id, x), { inner with head := rest, len := (inner.len + U64 - 1) % U64 })

/-- `Stacc::pop` (src/stacc_lockfree.rs, lines 141-152): on success the
counter is decremented back to 0, the payload is read out, and the node is
cached in `local_garbage`. -/
def Stacc.pop {T} (s : Stacc T) : Option T × Stacc T :=
  match StaccInner.pop s.inner with
  | (none, inner) => (none, { s with inner := inner })
  | (some (id, x), inner) =>
    (some x, { s with inner := inner, local_garbage := s.local_garbage ++ [id] })

/-- `Stacc::push` (src/stacc_lockfree.rs, lines 154-157). -/
def Stacc.push {T} (s : Stacc T) (x : T) : Stacc T :=
  let p := s.make_node
  { p.2 with inner := StaccInner.push p.2.inner p.1 x }

/-- `Stacc::len` (src/stacc_lockfree.rs, lines 159-161). -/
def Stacc.lenOp {T} (s : Stacc T) : Nat := s.inner.len

/-- Push a list of values left-to-right. -/
def pushAll {T} (s : Stacc T) : List T → Stacc T
  | [] => s
  | x :: xs => pushAll (s.push x) xs

/-- Pop `k` times, collecting the results. -/
def popN {T} : Nat → Stacc T → List (Option T) × Stacc T
  | 0, s => ([], s)
  | k+1, s =>
    let p := s.pop
    let q := popN k p.2
    (p.1 :: q.1, q.2)

/-- The primitive atomic events of the CAS retry loop in
`StaccInner::pop` (src/stacc_lockfree.rs, lines 67-95). -/
inductive PopEvent where
  | load_head
  | counter_inc (id : Nat)
  | read_next (id : Nat)
  | cas (ok : Bool)
  | counter_dec (id : Nat)
deriving DecidableEq

/-- One iteration of the pop retry loop on candidate node `id`, in source
order (src/stacc_lockfree.rs, lines 69-93): load `head`, `fetch_add(1)` the
candidate's counter, read its `next`, attempt the CAS; on failure
`fetch_sub(1)` the counter before retrying. -/
def popAttemptEvents (id : Nat) (casOk : Bool) : List PopEvent :=
  [.load_head, .counter_inc id, .read_next id, .cas casOk]
    ++ if casOk then [] else [.counter_dec id]

/-- The event trace of a full `StaccInner::pop` call whose CAS fails on the
candidates in `fails` (in that order) and then either succeeds on a last
candidate or observes a null head and reports empty. -/
def popLoopEvents (fails : List Nat) (last : Option Nat) : List PopEvent :=
  (fails.map (fun id => popAttemptEvents id false)).flatten ++
    match last with
    | none => [.load_head]
    | some id => popAttemptEvents id true

/-- Net effect of an event list on node `id`'s counter. -/
def counterDelta (id : Nat) : List PopEvent → Int
  | [] => 0
  | e :: es =>
    (match e with
     | .counter_inc j => if j = id then 1 else 0
     | .counter_dec j => if j = id then -1 else 0
     | _ => 0) + counterDelta id es

end StaccLockfree

namespace StaccLockfreeHp

/-- `MAX_THREADS` (src/stacc_lockfree_hp.rs, line 11). -/
def MAX_THREADS : Nat := 32

/-- The scan threshold `R` (src/stacc_lockfree_hp.rs, line 12). -/
def R : Nat := 42

/-- A heap node (src/stacc_lockfree_hp.rs, lines 14-17): a possibly
uninitialized/moved-out payload and a raw `next` pointer (0 = null). -/
structure Node (T : Type) where
  data : Option T
  next : Nat

/-- Model of `Shared<T>` (src/stacc_lockfree_hp.rs, lines 32-45) together
with the allocator: Box addresses are positive `Nat` ids, `heap` maps every
address to the node stored there, and `alloc` is the next fresh address. -/
structure Shared (T : Type) where
  top : Nat
  heap : Nat → Node T
  alloc : Nat
  hazard_pointers : List Nat
  boxes_that_are_still_hazard : List Nat
  counter : Nat
  len : Nat

/-- The per-handle state of `LockFreeStacc<T>`
(src/stacc_lockfree_hp.rs, lines 82-89); the shared part is passed
separately. -/
structure LockFreeStacc (T : Type) where
  retired_pointers : List Nat
  thread_number : Nat
  cached_allocations : List Nat
deriving DecidableEq

/-- `LockFreeStacc::new` (src/stacc_lockfree_hp.rs, lines 95-103):
`Shared::new` then `counter.fetch_add(1)`, so the first handle gets thread
number 0 and the shared counter becomes 1. -/
def newState (T : Type) : Shared T × LockFreeStacc T :=
  (⟨0, fun _ => ⟨none, 0⟩, 1, List.replicate MAX_THREADS 0, [], 1, 0⟩, ⟨[], 0, []⟩)

/-- `Clone for LockFreeStacc` (src/stacc_lockfree_hp.rs, lines 234-245):
the clone's thread number is `counter.fetch_add(1)`. -/
def cloneHandle {T} (sh : Shared T) : Shared T × LockFreeStacc T :=
  ({ sh with counter := sh.counter + 1 }, ⟨[], sh.counter, []⟩)

/-- Model of `slice::sort_unstable` (std library) by insertion sort: any
correct sorting of the collected addresses. -/
def insertSorted (x : Nat) : List Nat → List Nat
  | [] => [x]
  | y :: ys => if x ≤ y then x :: y :: ys else y :: insertSorted x ys

/-- See `insertSorted`. -/
def sort_unstable (l : List Nat) : List Nat := l.foldr insertSorted []

/-- Models the contract of `slice::binary_search` (std library) on a sorted
slice: the search returns `Ok` exactly when the value is present. -/
def binary_search_found (v : List Nat) (x : Nat) : Bool := v.contains x

/-- `LockFreeStacc::scan` (src/stacc_lockfree_hp.rs, lines 115-138):
collect the non-null published hazard addresses, sort them, then
`drain_filter` from the retired list every address whose binary search
misses, handing each drained node to `prepare_for_reuse` (appending it to
the cache); retired addresses that are still published remain retired. -/
def scan {T} (sh : Shared T) (l : LockFreeStacc T) : LockFreeStacc T :=
  let v := sort_unstable (sh.hazard_pointers.filter (fun p => !(p == 0)))
  let removed := l.retired_pointers.filter (fun x => !(binary_search_found v x))
  let rlist := l.retired_pointers.filter (fun x => binary_search_found v x)
  { l with retired_pointers := rlist,
           cached_allocations := l.cached_allocations ++ removed }

/-- `LockFreeStacc::retire_node` (src/stacc_lockfree_hp.rs, lines 140-145):
push onto the retired list; scan once the list reaches `R` entries. -/
def retire_node {T} (sh : Shared T) (l : LockFreeStacc T) (node : Nat) : LockFreeStacc T :=
  let l1 : LockFreeStacc T := { l with retired_pointers := l.retired_pointers ++ [node] }
  if R ≤ l1.retired_pointers.length then scan sh l1 else l1

/-- `LockFreeStacc::get_node` (src/stacc_lockfree_hp.rs, lines 105-110):
`cached_allocations.pop()` returns the most recently cached box AS IS —
the freshly composed `node` argument is dropped, so a reused box keeps its
stale payload and stale `next`; only a cache miss allocates a new box
actually holding `node`. -/
def get_node {T} (sh : Shared T) (l : LockFreeStacc T) (node : Node T) :
    Nat × Shared T × LockFreeStacc T :=
  match l.cached_allocations.getLast? with
  | some b => (b, sh, { l with cached_allocations := l.cached_allocations.dropLast })
  | none => (sh.alloc,
             { sh with heap := fun j => if j = sh.alloc then node else sh.heap j,
                       alloc := sh.alloc + 1 }, l)

/-- `LockFreeStacc::push` (src/stacc_lockfree_hp.rs, lines 147-169),
sequential collapse: the CAS succeeds on the first try, so the node
obtained from `get_node` becomes the new top; `len` is incremented. -/
def push {T} (sh : Shared T) (l : LockFreeStacc T) (x : T) :
    Shared T × LockFreeStacc T :=
  let node : Node T := ⟨some x, sh.top⟩
  let g := get_node sh l node
  ({ g.2.1 with top := g.1, len := (g.2.1.len + 1) % U64 }, g.2.2)

/-- `LockFreeStacc::pop` (src/stacc_lockfree_hp.rs, lines 171-218),
sequential collapse: publish the hazard pointer (also when top is null),
re-read `top` (unchanged sequentially), read `next`, CAS succeeds, clear
the hazard slot, decrement `len`, read the payload out and retire the
node.  A successful pop returns the raw payload cell (`Option T`). -/
def pop {T} (sh : Shared T) (l : LockFreeStacc T) :
    Option (Option T) × Shared T × LockFreeStacc T :=
  let top := sh.top
  let sh1 : Shared T :=
    { sh with hazard_pointers := sh.hazard_pointers.set l.thread_number top }
  if top = 0 then (none, sh1, l)
  else
    let nd := sh1.heap top
    let sh2 : Shared T :=
      { sh1 with top := nd.next,
                 hazard_pointers := sh1.hazard_pointers.set l.thread_number 0,
                 len := (sh1.len + U64 - 1) % U64 }
    (some nd.data, sh2, retire_node sh2 l top)

/-- Push a list of values left-to-right. -/
def pushAll {T} (sh : Shared T) (l : LockFreeStacc T) :
    List T → Shared T × LockFreeStacc T
  | [] => (sh, l)
  | x :: xs =>
    let p := push sh l x
    pushAll p.1 p.2 xs

/-- Pop `k` times, collecting the results. -/
def popN {T} : Nat → Shared T → LockFreeStacc T →
    List (Option (Option T)) × Shared T × LockFreeStacc T
  | 0, sh, l => ([], sh, l)
  | k+1, sh, l =>
    let p := pop sh l
    let q := popN k p.2.1 p.2.2
    (p.1 :: q.1, q.2)

/-- `Reps heap p chain` holds when following `next` pointers from `p`
traverses exactly the (address, payload) pairs of `chain` and ends at
null. -/
inductive Reps {T : Type} (heap : Nat → Node T) : Nat → List (Nat × Option T) → Prop
  | nil : Reps heap 0 []
  | cons (id : Nat) (rest : List (Nat × Option T)) (hid : id ≠ 0)
      (h : Reps heap (heap id).next rest) :
      Reps heap id ((id, (heap id).data) :: rest)

end StaccLockfreeHp

namespace StaccLockfreeEbr

/-- `MAX_THREADS` (src/stacc_lockfree_ebr.rs, line 6). -/
def MAX_THREADS : Nat := 32

/-- Model of `ThreadLocal` (src/stacc_lockfree_ebr.rs, lines 27-39). -/
structure ThreadLocal where
  current_epoch : Nat
  is_active : Bool
deriving DecidableEq

/-- `ThreadLocal::new` (src/stacc_lockfree_ebr.rs, lines 33-38). -/
def ThreadLocal.new : ThreadLocal := ⟨0, false⟩

/-- Model of `Shared<T>` (src/stacc_lockfree_ebr.rs, lines 41-50): `top` is
the chain of linked nodes (node id, payload) with the top first.  Unlike
the hazard-pointer variant, node reuse here overwrites the whole node
(`*p = node`, line 166), so the collapsed chain is a faithful sequential
model.  Note the commented-out `global_garbage` field (line 49): `Shared`
holds no deferred list. -/
structure Shared (T : Type) where
  top : List (Nat × T)
  threads : List ThreadLocal
  global_epoch : Nat
  thread_counter : Nat

/-- `Shared::new` (src/stacc_lockfree_ebr.rs, lines 69-77). -/
def Shared.new (T : Type) : Shared T :=
  ⟨[], List.replicate MAX_THREADS ThreadLocal.new, 0, 0⟩

/-- `Shared::start_shared_section` (src/stacc_lockfree_ebr.rs, lines
80-113): set the active flag, swap the thread's epoch to the current global
epoch (returning the old one), and — when NOT every active thread has been
observed at the current epoch — attempt the epoch-advance CAS.  In this
sequential embedding the CAS always succeeds (nothing can change the
global epoch between its load at line 85 and the compare-exchange at line
105); `checked_add` cannot overflow on `Nat`. -/
def start_shared_section {T} (s : Shared T) (thread_id : Nat) : (Nat × Nat) × Shared T :=
  let t0 := s.threads.getD thread_id ThreadLocal.new
  let threads1 := s.threads.set thread_id { t0 with is_active := true }
  let current_epoch := s.global_epoch
  let old_epoch := (threads1.getD thread_id ThreadLocal.new).current_epoch
  let threads2 := threads1.set thread_id ⟨current_epoch, true⟩
  let have_all_threads_seen_epoch :=
    (threads2.filter (fun t => t.is_active)).all
      (fun t => t.current_epoch == current_epoch)
  if have_all_threads_seen_epoch then
    ((old_epoch, current_epoch), { s with threads := threads2 })
  else
    let next_epoch := current_epoch + 1
    ((old_epoch, current_epoch),
     { s with threads := threads2, global_epoch := next_epoch })

/-- `Shared::end_shared_section` (src/stacc_lockfree_ebr.rs, lines 115-117). -/
def end_shared_section {T} (s : Shared T) (thread_id : Nat) : Shared T :=
  let t0 := s.threads.getD thread_id ThreadLocal.new
  { s with threads := s.threads.set thread_id { t0 with is_active := false } }

/-- The per-handle state of `Local<T>` (src/stacc_lockfree_ebr.rs, lines
120-126); the shared part is passed separately.  `alloc` models the Box
allocator (next fresh node id) for the single-handle sequential scenarios
proved here. -/
structure Local where
  thread_id : Nat
  limbo : List (List Nat)
  garbage : List Nat
  alloc : Nat
deriving DecidableEq

/-- `Local::new` (src/stacc_lockfree_ebr.rs, lines 129-137): `thread_id` is
the literal 0 and the shared `thread_counter` is NOT consumed. -/
def LocalNew (T : Type) : Shared T × Local :=
  (Shared.new T, ⟨0, [[], [], []], [], 1⟩)

/-- `Clone for Local` (src/stacc_lockfree_ebr.rs, lines 228-237): the
clone's `thread_id` is `thread_counter.fetch_add(1)` — the counter's old
value — with no bound check against `MAX_THREADS`. -/
def cloneHandle {T} (s : Shared T) : Shared T × Local :=
  ({ s with thread_counter := s.thread_counter + 1 },
   ⟨s.thread_counter, [[], [], []], [], 1⟩)

/-- Clone `k` times in a row, returning the shared state and the last
clone's handle (for `k = 0`, the original handle from `Local::new`). -/
def cloneN {T} : Nat → Shared T × Local → Shared T × Local
  | 0, sl => sl
  | k+1, sl => cloneN k (cloneHandle sl.1)

/-- The limbo maintenance of `Local::mark_use` (src/stacc_lockfree_ebr.rs,
lines 140-150), given the `(prev, next)` epochs returned by
`start_shared_section`: drain the first `min(next - prev, limbo.len())`
buckets into the reusable `garbage` list and rotate the buckets left by
that amount.  (`next - prev` is `Nat` subtraction; the thread's recorded
epoch never exceeds the global epoch, which only grows.) -/
def limbo_update (prev next : Nat) (l : Local) : Local :=
  let diff := min (next - prev) l.limbo.length
  let drained := (l.limbo.take diff).flatten
  let cleared := List.replicate diff ([] : List Nat) ++ l.limbo.drop diff
  { l with garbage := l.garbage ++ drained, limbo := cleared.rotateLeft diff }

/-- `Local::mark_use` (src/stacc_lockfree_ebr.rs, lines 139-150). -/
def mark_use {T} (s : Shared T) (l : Local) : Shared T × Local :=
  let r := start_shared_section s l.thread_id
  (r.2, limbo_update r.1.1 r.1.2 l)

/-- `Local::defer` (src/stacc_lockfree_ebr.rs, lines 152-158): end the
shared section and push the pointer onto the last limbo bucket. -/
def defer {T} (s : Shared T) (l : Local) (ptr : Nat) : Shared T × Local :=
  (end_shared_section s l.thread_id,
   { l with limbo := match l.limbo with
                     | [a, b, c] => [a, b, c ++ [ptr]]
                     | other => other })

/-- `Local::get_node` (src/stacc_lockfree_ebr.rs, lines 160-168): pop a
cached box (`Vec::pop` takes the last) or allocate a fresh one; a reused
box is overwritten whole, so it always carries the new contents. -/
def get_node (l : Local) : Nat × Local :=
  match l.garbage.getLast? with
  | some p => (p, { l with garbage := l.garbage.dropLast })
  | none => (l.alloc, { l with alloc := l.alloc + 1 })

/-- `Local::push` (src/stacc_lockfree_ebr.rs, lines 170-190), sequential
collapse: the CAS succeeds on the first try. -/
def push {T} (s : Shared T) (l : Local) (x : T) : Shared T × Local :=
  let g := get_node l
  ({ s with top := (g.1, x) :: s.top }, g.2)

/-- `Local::pop` (src/stacc_lockfree_ebr.rs, lines 192-223), sequential
collapse: `mark_use`; an empty top returns `none` (the shared section is
NOT ended on this path); otherwise the top node is unlinked, its payload
read, and the node `defer`red. -/
def pop {T} (s : Shared T) (l : Local) : Option T × Shared T × Local :=
  let m := mark_use s l
  match m.1.top with
  | [] => (none, m.1, m.2)
  | (id, x) :: rest =>
    let d := defer { m.1 with top := rest } m.2 id
    (some x, d.1, d.2)

/-- `Drop for Local` (src/stacc_lockfree_ebr.rs, lines 239-245):
`mark_use`, then `end_shared_section`.  The `garbage` boxes are freed by
the `Vec<Box<_>>` drop; the raw pointers still in the limbo buckets are
dropped without being freed or handed to any shared structure (the
`TODO: don't leak pointers in limbo` path).  Returns the shared state, the
freed ids, and the leaked ids. -/
def dropHandle {T} (s : Shared T) (l : Local) : Shared T × List Nat × List Nat :=
  let m := mark_use s l
  (end_shared_section m.1 l.thread_id, m.2.garbage, m.2.limbo.flatten)

/-- Push a list of values left-to-right. -/
def pushAll {T} (s : Shared T) (l : Local) : List T → Shared T × Local
  | [] => (s, l)
  | x :: xs =>
    let p := push s l x
    pushAll p.1 p.2 xs

/-- Pop `k` times, collecting the results. -/
def popN {T} : Nat → Shared T → Local → List (Option T) × Shared T × Local
  | 0, s, l => ([], s, l)
  | k+1, s, l =>
    let p := pop s l
    let q := popN k p.2.1 p.2.2
    (p.1 :: q.1, q.2)

/-- Fold `limbo_update` over a thread's successive shared-section entries:
`runEntries e es l` performs one `limbo_update` per epoch in `es`, each
using the previously observed epoch as `prev`; returns the last observed
epoch and the final local state. -/
def runEntries : Nat → List Nat → Local → Nat × Local
  | e, [], l => (e, l)
  | e, e1 :: rest, l => runEntries e1 rest (limbo_update e e1 l)

/-- The inductive invariant for the C6 safety argument: after the thread
last observed epoch `e`, a pointer `p` deferred at epoch `e0` is in the
garbage only if `e ≥ e0 + 3`, and is in limbo bucket `i` only if
`e + i ≥ e0 + 2`. -/
def EbrInv (p e0 e : Nat) (l : Local) : Prop :=
  l.limbo.length = 3 ∧
  (p ∈ l.garbage → e0 + 3 ≤ e) ∧
  (∀ i, i < 3 → p ∈ l.limbo.getD i [] → e0 + 2 ≤ e + i)

end StaccLockfreeEbr

-- ###########################################################################
-- #  Lemmas and theorems
-- ###########################################################################

namespace Stacc

theorem AtomicPop.pop_zero {T} (zs : List (Option T)) :
    AtomicPop.pop ⟨zs, 0⟩ = (none, ⟨zs, 0⟩) := by
  simp [AtomicPop.pop]

theorem AtomicPop.pop_pos {T} (zs : List (Option T)) (k : Int) (hk : 0 < k) :
    AtomicPop.pop ⟨zs, k⟩ = (some (zs.getD (k - 1).toNat none), ⟨zs, k - 1⟩) := by
  simp only [AtomicPop.pop]
  rw [if_neg (by omega), if_neg (by omega)]

theorem AtomicPush.push_mid {T} (ws : List (Option T)) (k : Int) (x : T)
    (_h0 : 0 ≤ k) (hk : k < (ws.length : Int)) :
    AtomicPush.push ⟨ws, k⟩ x = (none, ⟨ws.set k.toNat (some x), k + 1⟩) := by
  simp only [AtomicPush.push]
  rw [if_neg (by omega), if_neg (by omega)]

theorem AtomicPush.push_full {T} (ws : List (Option T)) (x : T) :
    AtomicPush.push ⟨ws, (ws.length : Int)⟩ x = (some x, ⟨ws, (ws.length : Int)⟩) := by
  have h : ((ws.length : Int) + 1) ⊓ (ws.length : Int) = (ws.length : Int) :=
    inf_eq_right.mpr (by omega)
  simp [AtomicPush.push, h]

theorem StaccInner.push_direct {T} (f : Nat) (s : StaccInner T) (x : T)
    (ws : List (Option T)) (k : Int) (hf : 1 ≤ f) (hp : s.pushers = ⟨ws, k⟩)
    (h0 : 0 ≤ k) (hk : k < (ws.length : Int)) :
    StaccInner.push f s x
      = some (none, { s with pushers := ⟨ws.set k.toNat (some x), k + 1⟩ }) := by
  obtain ⟨f, rfl⟩ : ∃ g, f = g + 1 := ⟨f - 1, by omega⟩
  rw [StaccInner.push, hp, AtomicPush.push_mid ws k x h0 hk]

theorem StaccInner.push_swap {T} (f : Nat) (s : StaccInner T) (x : T)
    (ws : List (Option T)) (hp : s.pushers = ⟨ws, (ws.length : Int)⟩)
    (hpop : clampNat s.poppers.len ≠ s.poppers.slice.length) :
    StaccInner.push (f+1) s x = StaccInner.push f s.swap_stacks x := by
  obtain ⟨⟨ps, pl⟩, pu⟩ := s
  cases hp
  rw [StaccInner.push, AtomicPush.push_full ws x]
  simp only []
  rw [if_pos hpop]

theorem StaccInner.push_reject {T} (f : Nat) (s : StaccInner T) (x : T)
    (ws : List (Option T)) (hf : 1 ≤ f) (hp : s.pushers = ⟨ws, (ws.length : Int)⟩)
    (hpop : clampNat s.poppers.len = s.poppers.slice.length) :
    StaccInner.push f s x = some (some x, s) := by
  obtain ⟨f, rfl⟩ : ∃ g, f = g + 1 := ⟨f - 1, by omega⟩
  obtain ⟨⟨ps, pl⟩, pu⟩ := s
  cases hp
  rw [StaccInner.push, AtomicPush.push_full ws x]
  simp only []
  rw [if_neg (by simpa using hpop)]

theorem StaccInner.pop_direct {T} (f : Nat) (s : StaccInner T)
    (zs : List (Option T)) (k : Int) (hf : 1 ≤ f) (hp : s.poppers = ⟨zs, k⟩)
    (hk : 0 < k) :
    StaccInner.pop f s
      = some (some (zs.getD (k - 1).toNat none), { s with poppers := ⟨zs, k - 1⟩ }) := by
  obtain ⟨f, rfl⟩ : ∃ g, f = g + 1 := ⟨f - 1, by omega⟩
  rw [StaccInner.pop, hp, AtomicPop.pop_pos zs k hk]

theorem StaccInner.pop_swap {T} (f : Nat) (s : StaccInner T)
    (zs : List (Option T)) (hp : s.poppers = ⟨zs, 0⟩)
    (hpush : clampNat s.pushers.len ≠ 0) :
    StaccInner.pop (f+1) s = StaccInner.pop f s.swap_stacks := by
  obtain ⟨po, pu⟩ := s
  cases hp
  rw [StaccInner.pop, AtomicPop.pop_zero zs]
  simp only []
  rw [if_pos hpush]

theorem StaccInner.pop_reject {T} (f : Nat) (s : StaccInner T)
    (zs : List (Option T)) (hf : 1 ≤ f) (hp : s.poppers = ⟨zs, 0⟩)
    (hpush : clampNat s.pushers.len = 0) :
    StaccInner.pop f s = some (none, s) := by
  obtain ⟨f, rfl⟩ : ∃ g, f = g + 1 := ⟨f - 1, by omega⟩
  obtain ⟨po, pu⟩ := s
  cases hp
  rw [StaccInner.pop, AtomicPop.pop_zero zs]
  simp only []
  rw [if_neg (by simpa using hpush)]

/-- The slice contents produced by writing `us` into consecutive cells
starting at index `k`. -/
def writeFrom {T} (ws : List (Option T)) (k : Nat) : List T → List (Option T)
  | [] => ws
  | x :: xs => writeFrom (ws.set k (some x)) (k+1) xs

theorem pushSeq_run {T} (f : Nat) (us : List T) :
    ∀ (s : StaccInner T) (ws : List (Option T)) (k : Nat),
      s.pushers = ⟨ws, (k : Int)⟩ → k + us.length ≤ ws.length →
      pushSeq (f+1) us s
        = some (List.replicate us.length none,
                { s with pushers := ⟨writeFrom ws k us, ((k + us.length : Nat) : Int)⟩ }) := by
  induction us with
  | nil =>
    intro s ws k hp _
    obtain ⟨po, pu⟩ := s
    cases hp
    simp [pushSeq, writeFrom]
  | cons x xs ih =>
    intro s ws k hp hlen
    rw [pushSeq]
    rw [StaccInner.push_direct (f+1) s x ws (k : Int) (by omega) hp (by omega)
      (by simp at hlen ⊢; omega)]
    have hcast : ((k : Int)) + 1 = ((k + 1 : Nat) : Int) := by push_cast; ring
    simp only [Int.toNat_natCast, hcast]
    rw [ih { poppers := s.poppers, pushers := ⟨ws.set k (some x), ((k + 1 : Nat) : Int)⟩ }
      (ws.set k (some x)) (k+1) rfl (by simp at hlen ⊢; omega)]
    simp only [writeFrom, List.replicate_succ, List.length_cons]
    have : k + 1 + xs.length = k + (xs.length + 1) := by omega
    rw [this]

theorem writeFrom_fill {T} (vs : List T) :
    ∀ (as : List (Option T)) (m : Nat), vs.length ≤ m →
      writeFrom (as ++ List.replicate m none) as.length vs
        = as ++ vs.map some ++ List.replicate (m - vs.length) none := by
  induction vs with
  | nil => intro as m _; simp [writeFrom]
  | cons x xs ih =>
    intro as m hm
    obtain ⟨m, rfl⟩ : ∃ g, m = g + 1 := ⟨m - 1, by simp at hm; omega⟩
    rw [writeFrom]
    have hset : (as ++ List.replicate (m+1) none).set as.length (some x)
        = (as ++ [some x]) ++ List.replicate m none := by
      rw [List.set_append, if_neg (by omega)]
      simp [List.replicate_succ]
    rw [hset]
    have hx := ih (as ++ [some x]) m (by simp at hm; omega)
    norm_num at hx
    simp only [List.append_assoc, List.singleton_append]
    rw [hx]
    simp [Nat.succ_sub_succ]

theorem popSeq_drain {T} (f : Nat) (xs : List T) :
    ∀ (pad : List (Option T)) (s : StaccInner T),
      s.poppers = ⟨xs.map some ++ pad, (xs.length : Int)⟩ →
      popSeq (f+1) xs.length s
        = some (xs.reverse.map (fun v => some (some v)),
                { s with poppers := ⟨xs.map some ++ pad, 0⟩ }) := by
  induction xs using List.reverseRecOn with
  | nil =>
    intro pad s hp
    obtain ⟨po, pu⟩ := s
    cases hp
    simp [popSeq]
  | append_singleton ys y ih =>
    intro pad s hp
    rw [show (ys ++ [y]).length = ys.length + 1 by simp, popSeq]
    rw [StaccInner.pop_direct (f+1) s ((ys ++ [y]).map some ++ pad)
      ((ys.length : Int) + 1) (by omega) (by rw [hp]; simp) (by omega)]
    have hval : ((ys ++ [y]).map some ++ pad).getD (((ys.length : Int) + 1 - 1).toNat) none
        = some y := by
      have : ((ys.length : Int) + 1 - 1).toNat = ys.length := by omega
      rw [this]
      rw [show (ys ++ [y]).map some ++ pad = ys.map some ++ (some y :: pad) by simp]
      rw [List.getD_append_right _ _ _ _ (by simp)]
      simp
    rw [hval]
    have hstep := ih (some y :: pad)
      ({ s with poppers := ⟨(ys ++ [y]).map some ++ pad, (ys.length : Int) + 1 - 1⟩ })
      (by simp)
    dsimp only at hstep ⊢
    rw [hstep]
    simp [List.reverse_concat]

theorem pushSeq_append {T} (f : Nat) (us ws : List T) :
    ∀ (s s' s'' : StaccInner T) (rs rs' : List (Option T)),
      pushSeq f us s = some (rs, s') → pushSeq f ws s' = some (rs', s'') →
      pushSeq f (us ++ ws) s = some (rs ++ rs', s'') := by
  induction us with
  | nil =>
    intro s s' s'' rs rs' h1 h2
    simp only [pushSeq] at h1
    obtain ⟨rfl, rfl⟩ : rs = [] ∧ s' = s := by
      cases h1; exact ⟨rfl, rfl⟩
    simpa using h2
  | cons x xs ih =>
    intro s s' s'' rs rs' h1 h2
    simp only [List.cons_append]
    rw [pushSeq] at h1 ⊢
    cases hpush : StaccInner.push f s x with
    | none => rw [hpush] at h1; cases h1
    | some rs1 =>
      obtain ⟨r1, s1⟩ := rs1
      rw [hpush] at h1
      dsimp only at h1 ⊢
      cases hseq : pushSeq f xs s1 with
      | none => rw [hseq] at h1; cases h1
      | some rs2 =>
        obtain ⟨r2, s2⟩ := rs2
        rw [hseq] at h1
        cases h1
        rw [ih s1 _ s'' r2 rs' hseq h2]
        rfl

theorem popSeq_add {T} (f : Nat) (m n : Nat) :
    ∀ (s s' s'' : StaccInner T) (rs rs' : List (Option (Option T))),
      popSeq f m s = some (rs, s') → popSeq f n s' = some (rs', s'') →
      popSeq f (m + n) s = some (rs ++ rs', s'') := by
  induction m with
  | zero =>
    intro s s' s'' rs rs' h1 h2
    simp only [popSeq] at h1
    obtain ⟨rfl, rfl⟩ : rs = [] ∧ s' = s := by
      cases h1; exact ⟨rfl, rfl⟩
    simpa using h2
  | succ m ih =>
    intro s s' s'' rs rs' h1 h2
    rw [show m + 1 + n = (m + n) + 1 by omega]
    rw [popSeq] at h1 ⊢
    cases hpop : StaccInner.pop f s with
    | none => rw [hpop] at h1; cases h1
    | some rs1 =>
      obtain ⟨r1, s1⟩ := rs1
      rw [hpop] at h1
      dsimp only at h1 ⊢
      cases hseq : popSeq f m s1 with
      | none => rw [hseq] at h1; cases h1
      | some rs2 =>
        obtain ⟨r2, s2⟩ := rs2
        rw [hseq] at h1
        cases h1
        rw [ih s1 _ s'' r2 rs' hseq h2]
        rfl

theorem pushPhase {T : Type} (C : Nat) (us ws : List T)
    (hus : us.length = C) (hws : ws.length = C) :
    pushSeq 2 (us ++ ws) (StaccInner.new T C)
      = some (List.replicate (2*C) none,
              ⟨⟨us.map some, (C : Int)⟩, ⟨ws.map some, (C : Int)⟩⟩) := by
  rcases Nat.eq_zero_or_pos C with hC | hC
  · subst hC
    obtain rfl : us = [] := List.eq_nil_of_length_eq_zero hus
    obtain rfl : ws = [] := List.eq_nil_of_length_eq_zero hws
    simp [pushSeq, StaccInner.new]
  · obtain ⟨D, rfl⟩ : ∃ D, C = D + 1 := ⟨C - 1, by omega⟩
    have h1 : pushSeq 2 us (StaccInner.new T (D+1))
        = some (List.replicate (D+1) none,
                ⟨⟨List.replicate (D+1) none, 0⟩, ⟨us.map some, ((D+1 : Nat) : Int)⟩⟩) := by
      have hr := pushSeq_run 1 us (StaccInner.new T (D+1)) (List.replicate (D+1) none) 0
        rfl (by simp [hus])
      have hw : writeFrom (List.replicate (D+1) (none : Option T)) 0 us = us.map some := by
        have := writeFrom_fill us [] (D+1) (by omega)
        simpa [hus] using this
      rw [hr]
      simp [hw, hus, StaccInner.new]
    cases ws with
    | nil => simp at hws
    | cons w ws' =>
      have hws' : ws'.length = D := by simp at hws; omega
      have hpushw : StaccInner.push 2
          (⟨⟨List.replicate (D+1) none, 0⟩, ⟨us.map some, ((D+1 : Nat) : Int)⟩⟩ : StaccInner T) w
          = some (none, ⟨⟨us.map some, ((D+1 : Nat) : Int)⟩,
                         ⟨(List.replicate (D+1) none).set 0 (some w), 1⟩⟩) := by
        rw [show (2:Nat) = 1 + 1 from rfl]
        rw [StaccInner.push_swap 1 _ w (us.map some) (by simp [hus]) (by simp [clampNat])]
        rw [StaccInner.push_direct 1 _ w (List.replicate (D+1) none) 0 le_rfl rfl le_rfl
          (by simp)]
        norm_num [StaccInner.swap_stacks]
      have hset : (List.replicate (D+1) (none : Option T)).set 0 (some w)
          = [some w] ++ List.replicate D none := by
        simp [List.replicate_succ]
      have hw2 : writeFrom ((List.replicate (D+1) (none : Option T)).set 0 (some w)) 1 ws'
          = (w :: ws').map some := by
        rw [hset]
        simp only [List.singleton_append]
        have := writeFrom_fill ws' [some w] D (by omega)
        norm_num at this
        rw [this]
        simp [hws']
      have h3 : pushSeq 2 ws'
          (⟨⟨us.map some, ((D+1 : Nat) : Int)⟩,
            ⟨(List.replicate (D+1) none).set 0 (some w), 1⟩⟩ : StaccInner T)
          = some (List.replicate D none,
                  ⟨⟨us.map some, ((D+1 : Nat) : Int)⟩,
                   ⟨(w :: ws').map some, ((D+1 : Nat) : Int)⟩⟩) := by
        have hr := pushSeq_run 1 ws'
          (⟨⟨us.map some, ((D+1 : Nat) : Int)⟩,
            ⟨(List.replicate (D+1) none).set 0 (some w), 1⟩⟩ : StaccInner T)
          ((List.replicate (D+1) none).set 0 (some w)) 1
          (by norm_num) (by simp [hws']; omega)
        rw [hr, hw2, hws']
        norm_num
        omega
      have h2 : pushSeq 2 (w :: ws')
          (⟨⟨List.replicate (D+1) none, 0⟩, ⟨us.map some, ((D+1 : Nat) : Int)⟩⟩ : StaccInner T)
          = some (List.replicate (D+1) none,
                  ⟨⟨us.map some, ((D+1 : Nat) : Int)⟩,
                   ⟨(w :: ws').map some, ((D+1 : Nat) : Int)⟩⟩) := by
        rw [pushSeq, hpushw]
        dsimp only
        rw [h3]
        simp [List.replicate_succ]
      have := pushSeq_append 2 us (w :: ws') _ _ _ _ _ h1 h2
      rw [this]
      rw [show List.replicate (D+1) (none : Option T) ++ List.replicate (D+1) none
            = List.replicate (2*(D+1)) none by
          rw [← List.replicate_add]; congr 1; omega]

theorem popPhase {T : Type} (C : Nat) (us ws : List T)
    (hus : us.length = C) (hws : ws.length = C) :
    popSeq 2 (2*C) (⟨⟨us.map some, (C : Int)⟩, ⟨ws.map some, (C : Int)⟩⟩ : StaccInner T)
      = some ((us.reverse ++ ws.reverse).map (fun v => some (some v)),
              ⟨⟨ws.map some, 0⟩, ⟨us.map some, 0⟩⟩) := by
  rcases Nat.eq_zero_or_pos C with hC | hC
  · subst hC
    obtain rfl : us = [] := List.eq_nil_of_length_eq_zero hus
    obtain rfl : ws = [] := List.eq_nil_of_length_eq_zero hws
    simp [popSeq]
  · have h1 : popSeq 2 C (⟨⟨us.map some, (C : Int)⟩, ⟨ws.map some, (C : Int)⟩⟩ : StaccInner T)
        = some (us.reverse.map (fun v => some (some v)),
                ⟨⟨us.map some, 0⟩, ⟨ws.map some, (C : Int)⟩⟩) := by
      have hd := popSeq_drain 1 us []
        (⟨⟨us.map some, (C : Int)⟩, ⟨ws.map some, (C : Int)⟩⟩ : StaccInner T)
        (by simp [hus])
      rw [hus] at hd
      simpa using hd
    rcases List.eq_nil_or_concat ws with rfl | ⟨t, y, rfl⟩
    · simp at hws; omega
    · rw [List.concat_eq_append] at *
      have ht : t.length = C - 1 := by simp at hws; omega
      have hpop1 : StaccInner.pop 2
          (⟨⟨us.map some, 0⟩, ⟨(t ++ [y]).map some, (C : Int)⟩⟩ : StaccInner T)
          = some (some (some y),
                  ⟨⟨(t ++ [y]).map some, (C : Int) - 1⟩, ⟨us.map some, 0⟩⟩) := by
        rw [show (2:Nat) = 1 + 1 from rfl]
        rw [StaccInner.pop_swap 1 _ (us.map some) rfl (by simp [clampNat]; omega)]
        rw [StaccInner.pop_direct 1 _ ((t ++ [y]).map some) (C : Int) le_rfl rfl
          (by positivity)]
        have hval : ((t ++ [y]).map some).getD ((C : Int) - 1).toNat none = some y := by
          have hidx : ((C : Int) - 1).toNat = t.length := by omega
          rw [hidx, List.map_append]
          rw [List.getD_append_right _ _ _ _ (by simp)]
          simp
        rw [hval]
        rfl
      have h2tail : popSeq 2 (C - 1)
          (⟨⟨(t ++ [y]).map some, (C : Int) - 1⟩, ⟨us.map some, 0⟩⟩ : StaccInner T)
          = some (t.reverse.map (fun v => some (some v)),
                  ⟨⟨(t ++ [y]).map some, 0⟩, ⟨us.map some, 0⟩⟩) := by
        have hd := popSeq_drain 1 t [some y]
          (⟨⟨(t ++ [y]).map some, (C : Int) - 1⟩, ⟨us.map some, 0⟩⟩ : StaccInner T)
          (by simp [List.map_append, ht]; omega)
        rw [ht] at hd
        simp only [List.map_append] at hd ⊢
        simpa using hd
      have h2 : popSeq 2 C
          (⟨⟨us.map some, 0⟩, ⟨(t ++ [y]).map some, (C : Int)⟩⟩ : StaccInner T)
          = some ((t ++ [y]).reverse.map (fun v => some (some v)),
                  ⟨⟨(t ++ [y]).map some, 0⟩, ⟨us.map some, 0⟩⟩) := by
        obtain ⟨D, rfl⟩ : ∃ D, C = D + 1 := ⟨C - 1, by omega⟩
        rw [popSeq, hpop1]
        dsimp only
        rw [show D + 1 - 1 = D from rfl] at h2tail
        rw [h2tail]
        simp [List.reverse_concat]
      have := popSeq_add 2 C C _ _ _ _ _ h1 h2
      rw [show 2 * C = C + C by omega, this]
      simp

end Stacc


/-- C9: for each sub-buffer of the bounded double-buffer stack, used
sequentially, a completed push or pop leaves the atomic length inside
`[0, capacity]`; a pop on an empty buffer returns `none` and leaves the
length at `0` (state unchanged), and a push on a full buffer returns the
value unchanged and leaves the length at capacity (state unchanged). -/
theorem claim9_sub_buffer_length_invariant :
    ∀ (T : Type) (s : Stacc.AtomicPop T) (p : Stacc.AtomicPush T) (x : T),
      (0 ≤ s.len → s.len ≤ (s.slice.length : Int) →
        0 ≤ (Stacc.AtomicPop.pop s).2.len ∧
        (Stacc.AtomicPop.pop s).2.len ≤ (s.slice.length : Int)) ∧
      (0 ≤ p.len → p.len ≤ (p.slice.length : Int) →
        0 ≤ (Stacc.AtomicPush.push p x).2.len ∧
        (Stacc.AtomicPush.push p x).2.len ≤ (p.slice.length : Int)) ∧
      (s.len = 0 → Stacc.AtomicPop.pop s = (none, s)) ∧
      (p.len = (p.slice.length : Int) → Stacc.AtomicPush.push p x = (some x, p)) := by
  intro T s p x
  obtain ⟨sl, slen⟩ := s
  obtain ⟨pl, plen⟩ := p
  refine ⟨?_, ?_, ?_, ?_⟩
  · intro h1 h2
    simp only [Stacc.AtomicPop.pop]
    split_ifs <;> simp_all <;> omega
  · intro h1 h2
    simp only [Stacc.AtomicPush.push]
    split_ifs <;> simp_all <;> omega
  · intro h
    dsimp only at h
    subst h
    exact Stacc.AtomicPop.pop_zero sl
  · intro h
    dsimp only at h
    subst h
    exact Stacc.AtomicPush.push_full pl x

/-- Witness for C9 at concrete buffers: an empty (length-0) pop buffer of
capacity 1 and a full (length-1) push buffer of capacity 1. -/
theorem claim9_witness :
    ((0 : Int) ≤ (Stacc.AtomicPop.pop (⟨[none], 0⟩ : Stacc.AtomicPop Nat)).2.len ∧
      (Stacc.AtomicPop.pop (⟨[none], 0⟩ : Stacc.AtomicPop Nat)).2.len ≤ 1) ∧
    ((0 : Int) ≤ (Stacc.AtomicPush.push (⟨[some 3], 1⟩ : Stacc.AtomicPush Nat) 7).2.len ∧
      (Stacc.AtomicPush.push (⟨[some 3], 1⟩ : Stacc.AtomicPush Nat) 7).2.len ≤ 1) ∧
    Stacc.AtomicPop.pop (⟨[none], 0⟩ : Stacc.AtomicPop Nat) = (none, ⟨[none], 0⟩) ∧
    Stacc.AtomicPush.push (⟨[some 3], 1⟩ : Stacc.AtomicPush Nat) 7 = (some 7, ⟨[some 3], 1⟩) := by
  have h := claim9_sub_buffer_length_invariant Nat ⟨[none], 0⟩ ⟨[some 3], 1⟩ 7
  exact ⟨h.1 (by decide) (by decide), h.2.1 (by decide) (by decide),
    h.2.2.1 rfl, h.2.2.2 (by decide)⟩

/-- C2 counterexample: with capacity `C = 1`, after `C = 1` successful push
the next push does NOT return the pushed value: it swaps in the drained pop
buffer and succeeds (both pushes return `none`), so the claim's "after C
successful pushes the next push returns the pushed value" is false at
`C = 1`, `pushes = [10, 20]`. -/
theorem claim2_counterexample :
    Stacc.pushSeq 2 [10, 20] (Stacc.StaccInner.new Nat 1)
      = some ([none, none], ⟨⟨[some 10], 1⟩, ⟨[some 20], 1⟩⟩)
    ∧ (none : Option Nat) ≠ some 20 := by decide

/-- C2 (amended): for the double-buffer stack of per-buffer capacity `C`,
`2*C` sequential pushes with no pops all succeed; the `(2*C+1)`-th push
returns the pushed value unchanged and leaves the state unchanged; popping
`2*C` times then succeeds for every stored element, and afterwards `len()`
returns `0`. -/
theorem claim2_amended :
    ∀ (T : Type) (C : Nat) (vs : List T) (x : T), vs.length = 2 * C →
      Stacc.pushSeq 2 vs (Stacc.StaccInner.new T C)
        = some (List.replicate (2*C) none,
            ⟨⟨(vs.take C).map some, (C : Int)⟩, ⟨(vs.drop C).map some, (C : Int)⟩⟩) ∧
      Stacc.StaccInner.push 2
          (⟨⟨(vs.take C).map some, (C : Int)⟩,
            ⟨(vs.drop C).map some, (C : Int)⟩⟩ : Stacc.StaccInner T) x
        = some (some x,
            ⟨⟨(vs.take C).map some, (C : Int)⟩, ⟨(vs.drop C).map some, (C : Int)⟩⟩) ∧
      Stacc.popSeq 2 (2*C)
          (⟨⟨(vs.take C).map some, (C : Int)⟩,
            ⟨(vs.drop C).map some, (C : Int)⟩⟩ : Stacc.StaccInner T)
        = some (((vs.take C).reverse ++ (vs.drop C).reverse).map (fun v => some (some v)),
            ⟨⟨(vs.drop C).map some, 0⟩, ⟨(vs.take C).map some, 0⟩⟩) ∧
      Stacc.StaccInner.lenOp
          (⟨⟨(vs.drop C).map some, 0⟩, ⟨(vs.take C).map some, 0⟩⟩ : Stacc.StaccInner T) = 0 := by
  intro T C vs x hlen
  have hus : (vs.take C).length = C := by simp [List.length_take]; omega
  have hws : (vs.drop C).length = C := by simp [List.length_drop]; omega
  refine ⟨?_, ?_, ?_, ?_⟩
  · have := Stacc.pushPhase C (vs.take C) (vs.drop C) hus hws
    rwa [List.take_append_drop] at this
  · exact Stacc.StaccInner.push_reject 2 _ x ((vs.drop C).map some) (by omega)
      (by simp [hws]; omega) (by simp [Stacc.clampNat_natCast]; omega)
  · exact Stacc.popPhase C (vs.take C) (vs.drop C) hus hws
  · simp [Stacc.StaccInner.lenOp, Stacc.clampNat]

/-- Witness for C2 (amended) at `C = 1`, `vs = [1, 2]`, rejected value `5`. -/
theorem claim2_amended_witness :
    ([1, 2] : List Nat).length = 2 * 1 ∧
    (Stacc.pushSeq 2 [1, 2] (Stacc.StaccInner.new Nat 1)
        = some (List.replicate (2*1) none,
            ⟨⟨([1, 2].take 1).map some, (1 : Int)⟩, ⟨([1, 2].drop 1).map some, (1 : Int)⟩⟩) ∧
      Stacc.StaccInner.push 2
          (⟨⟨([1, 2].take 1).map some, (1 : Int)⟩,
            ⟨([1, 2].drop 1).map some, (1 : Int)⟩⟩ : Stacc.StaccInner Nat) 5
        = some (some 5,
            ⟨⟨([1, 2].take 1).map some, (1 : Int)⟩, ⟨([1, 2].drop 1).map some, (1 : Int)⟩⟩) ∧
      Stacc.popSeq 2 (2*1)
          (⟨⟨([1, 2].take 1).map some, (1 : Int)⟩,
            ⟨([1, 2].drop 1).map some, (1 : Int)⟩⟩ : Stacc.StaccInner Nat)
        = some ((([1, 2].take 1).reverse ++ ([1, 2].drop 1).reverse).map (fun v => some (some v)),
            ⟨⟨([1, 2].drop 1).map some, 0⟩, ⟨([1, 2].take 1).map some, 0⟩⟩) ∧
      Stacc.StaccInner.lenOp
          (⟨⟨([1, 2].drop 1).map some, 0⟩,
            ⟨([1, 2].take 1).map some, 0⟩⟩ : Stacc.StaccInner Nat) = 0) :=
  ⟨by decide, claim2_amended Nat 1 [1, 2] 5 (by decide)⟩

/-- C3 counterexample: the double-buffer variant is not LIFO across a buffer
swap: with capacity 1, pushing `[10, 20]` and popping twice yields
`10` then `20`, not the claimed reverse order `20` then `10`. -/
theorem claim3_counterexample :
    (Stacc.pushSeq 2 [10, 20] (Stacc.StaccInner.new Nat 1)).bind
        (fun rs => Stacc.popSeq 2 2 rs.2)
      = some ([some (some 10), some (some 20)], ⟨⟨[some 20], 0⟩, ⟨[some 10], 0⟩⟩)
    ∧ [some (some 10), some (some 20)] ≠ [some (some 20), some (some (10 : Nat))] := by decide

/-- C10: the SPSC ring buffer's usable capacity is 255, one less than its
256-slot array: `push` returns `some x` and leaves the queue unchanged
exactly when `(tail + 1) % 256 = head` (at which point 255 elements are
stored, i.e. `len = 255`), and `len()` returns `(tail - head) mod 256`. -/
theorem claim10_spsc_capacity :
    ∀ (T : Type) (q : SpscQueue.QueueInner T) (x : T),
      q.data.length = 256 → q.head < 256 → q.tail < 256 →
      ((SpscQueue.QueueInner.push q x = (some x, q)) ↔ (q.tail + 1) % 256 = q.head) ∧
      ((q.tail + 1) % 256 = q.head → SpscQueue.QueueInner.len q = 255) ∧
      SpscQueue.QueueInner.len q = (q.tail + 256 - q.head) % 256 := by
  intro T q x hcap hh ht
  have hland : ∀ y : Nat, y &&& (256 - 1) = y % 256 := by
    intro y
    have := Nat.and_pow_two_sub_one_eq_mod y 8
    norm_num at this
    exact this
  have hnew : ((q.tail + 1) % U64) &&& (256 - 1) = (q.tail + 1) % 256 := by
    rw [hland]
    exact Nat.mod_mod_of_dvd _ (by norm_num [U64])
  refine ⟨?_, ?_, ?_⟩
  · by_cases hfull : (q.tail + 1) % 256 = q.head
    · simp only [SpscQueue.QueueInner.push, hcap, hnew]
      rw [if_pos hfull]
      exact iff_of_true rfl hfull
    · simp only [SpscQueue.QueueInner.push, hcap, hnew]
      rw [if_neg hfull]
      simp only [Prod.mk.injEq]
      constructor
      · rintro ⟨h, -⟩; cases h
      · intro h; exact absurd h hfull
  · intro hfull
    simp only [SpscQueue.QueueInner.len, hcap, hland, U64]
    omega
  · simp only [SpscQueue.QueueInner.len, hcap, hland, U64]
    omega

/-- Witness for C10 at a full queue: `head = 0`, `tail = 255`. -/
theorem claim10_witness :
    (SpscQueue.QueueInner.push
        (⟨0, 255, List.replicate 256 none⟩ : SpscQueue.QueueInner Nat) 7
      = (some 7, ⟨0, 255, List.replicate 256 none⟩)) ∧
    SpscQueue.QueueInner.len (⟨0, 255, List.replicate 256 none⟩ : SpscQueue.QueueInner Nat)
      = 255 := by
  have h := claim10_spsc_capacity Nat ⟨0, 255, List.replicate 256 none⟩ 7
    (by rw [List.length_replicate]) (by norm_num) (by norm_num)
  exact ⟨h.1.mpr (by norm_num), h.2.1 (by norm_num)⟩

namespace StaccLockfree

theorem counterDelta_append (id : Nat) (l1 l2 : List PopEvent) :
    counterDelta id (l1 ++ l2) = counterDelta id l1 + counterDelta id l2 := by
  induction l1 with
  | nil => simp [counterDelta]
  | cons e es ih => simp [counterDelta, ih]; ring

theorem counterDelta_attempt_false (id j : Nat) :
    counterDelta j (popAttemptEvents id false) = 0 := by
  by_cases h : id = j <;> simp [popAttemptEvents, counterDelta, h]

theorem counterDelta_attempt_true (id j : Nat) (h : j ≠ id) :
    counterDelta j (popAttemptEvents id true) = 0 := by
  have h' : id ≠ j := fun hh => h hh.symm
  simp [popAttemptEvents, counterDelta, h']

theorem counterDelta_loop (fails : List Nat) (last : Option Nat) (j : Nat)
    (h : ∀ l, last = some l → j ≠ l) :
    counterDelta j (popLoopEvents fails last) = 0 := by
  unfold popLoopEvents
  rw [counterDelta_append]
  have h1 : counterDelta j ((fails.map (fun id => popAttemptEvents id false)).flatten) = 0 := by
    induction fails with
    | nil => simp [counterDelta]
    | cons a as ih =>
      rw [List.map_cons, List.flatten_cons, counterDelta_append,
        counterDelta_attempt_false, ih]
      norm_num
  rw [h1]
  cases last with
  | none => simp [counterDelta]
  | some l =>
    rw [counterDelta_attempt_true l j (h l rfl)]
    norm_num

theorem push_head {T} (s : Stacc T) (x : T) :
    (s.push x).inner.head.map Prod.snd = x :: s.inner.head.map Prod.snd := by
  unfold Stacc.push Stacc.make_node StaccInner.push
  cases s.local_garbage.getLast? <;> simp

theorem pushAll_head {T} (vs : List T) :
    ∀ (s : Stacc T), (pushAll s vs).inner.head.map Prod.snd
      = vs.reverse ++ s.inner.head.map Prod.snd := by
  induction vs with
  | nil => intro s; simp [pushAll]
  | cons x xs ih =>
    intro s
    rw [pushAll, ih, push_head]
    simp

theorem popN_drain {T} (chain : List (Nat × T)) :
    ∀ (s : Stacc T), s.inner.head = chain →
      (popN chain.length s).1 = chain.map (fun p => some p.2) ∧
      (popN chain.length s).2.inner.head = [] := by
  induction chain with
  | nil =>
    intro s h
    simp [popN, h]
  | cons p rest ih =>
    intro s h
    obtain ⟨id, x⟩ := p
    rw [List.length_cons, popN]
    have hpop : s.pop
        = (some x, { s with
            inner := { s.inner with head := rest, len := (s.inner.len + U64 - 1) % U64 },
            local_garbage := s.local_garbage ++ [id] }) := by
      simp [Stacc.pop, StaccInner.pop, h]
    rw [hpop]
    have := ih { s with
        inner := { s.inner with head := rest, len := (s.inner.len + U64 - 1) % U64 },
        local_garbage := s.local_garbage ++ [id] } rfl
    dsimp only at this ⊢
    exact ⟨by rw [this.1]; simp, this.2⟩

theorem pop_empty {T} (s : Stacc T) (h : s.inner.head = []) :
    s.pop = (none, s) := by
  simp [Stacc.pop, StaccInner.pop, h]

end StaccLockfree

/-- C7: in the reference-counted variant's pop retry loop, the candidate
node's counter is incremented before its successor pointer is read (the
attempt's event trace is exactly load, increment, next-read, CAS, and on
failure a decrement); hence every failed attempt leaves the candidate's
counter with a net change of zero, and a whole pop call leaves every
node's counter unchanged except the node it finally pops. -/
theorem claim7_refcount_attempt_net_zero :
    ∀ (id : Nat) (fails : List Nat) (last : Option Nat) (j : Nat),
      StaccLockfree.popAttemptEvents id false
        = [.load_head, .counter_inc id, .read_next id, .cas false, .counter_dec id] ∧
      StaccLockfree.popAttemptEvents id true
        = [.load_head, .counter_inc id, .read_next id, .cas true] ∧
      StaccLockfree.counterDelta id (StaccLockfree.popAttemptEvents id false) = 0 ∧
      ((∀ l, last = some l → j ≠ l) →
        StaccLockfree.counterDelta j (StaccLockfree.popLoopEvents fails last) = 0) := by
  intro id fails last j
  exact ⟨rfl, rfl, StaccLockfree.counterDelta_attempt_false id id,
    fun h => StaccLockfree.counterDelta_loop fails last j h⟩

/-- Witness for C7: a pop call that fails its CAS on nodes 2 and 3 and then
succeeds on node 4 leaves node 5's (and every non-popped node's) counter
net change at zero; a single failed attempt on node 1 nets zero on node 1. -/
theorem claim7_witness :
    StaccLockfree.counterDelta 5 (StaccLockfree.popLoopEvents [2, 3] (some 4)) = 0 ∧
    StaccLockfree.counterDelta 1 (StaccLockfree.popAttemptEvents 1 false) = 0 :=
  ⟨(claim7_refcount_attempt_net_zero 1 [2, 3] (some 4) 5).2.2.2
      (by intro l hl; cases hl; decide),
    (claim7_refcount_attempt_net_zero 1 [] none 0).2.2.1⟩

namespace StaccLockfreeHp

theorem mem_insertSorted (x a : Nat) (l : List Nat) :
    a ∈ insertSorted x l ↔ a = x ∨ a ∈ l := by
  induction l with
  | nil => simp [insertSorted]
  | cons y ys ih =>
    by_cases h : x ≤ y
    · simp [insertSorted, h]
    · simp [insertSorted, h, ih]
      tauto

theorem mem_sort (a : Nat) (l : List Nat) : a ∈ sort_unstable l ↔ a ∈ l := by
  induction l with
  | nil => simp [sort_unstable]
  | cons x xs ih =>
    show a ∈ insertSorted x (sort_unstable xs) ↔ _
    rw [mem_insertSorted, ih]
    simp

theorem binary_search_found_sort (w : List Nat) (x : Nat) :
    binary_search_found (sort_unstable w) x = w.contains x := by
  by_cases h : x ∈ w
  · simp [binary_search_found, List.elem_iff, mem_sort, h]
  · simp [binary_search_found, List.elem_iff, mem_sort, h]

theorem scan_spec {T} (sh : Shared T) (l : LockFreeStacc T) :
    (scan sh l).retired_pointers
      = l.retired_pointers.filter
          (fun x => (sh.hazard_pointers.filter (fun p => !(p == 0))).contains x) ∧
    (scan sh l).cached_allocations
      = l.cached_allocations
        ++ l.retired_pointers.filter
            (fun x => !((sh.hazard_pointers.filter (fun p => !(p == 0))).contains x)) ∧
    (scan sh l).thread_number = l.thread_number := by
  refine ⟨?_, ?_, rfl⟩
  · show l.retired_pointers.filter _ = _
    exact List.filter_congr fun x _ => by rw [binary_search_found_sort]
  · show l.cached_allocations ++ l.retired_pointers.filter _ = _
    congr 1
    exact List.filter_congr fun x _ => by rw [binary_search_found_sort]

end StaccLockfreeHp

namespace StaccLockfreeHp

theorem reps_congr {T} (heap heap' : Nat → Node T) :
    ∀ (p : Nat) (chain : List (Nat × Option T)), Reps heap p chain →
      (∀ q ∈ chain.map Prod.fst, heap' q = heap q) → Reps heap' p chain := by
  intro p chain h
  induction h with
  | nil => intro _; exact Reps.nil
  | cons id rest hid hr ih =>
    intro hq
    have hbase : heap' id = heap id := hq id (by simp)
    have h1 : Reps heap' (heap id).next rest := ih fun q hq2 => hq q (by simp [hq2])
    have h2 : Reps heap' (heap' id).next rest := by rw [hbase]; exact h1
    have := @Reps.cons T heap' id rest hid h2
    rwa [hbase] at this

theorem reps_nil_eq {T} (heap : Nat → Node T) (p : Nat) (h : Reps heap p []) : p = 0 := by
  cases h
  rfl

theorem push_cache_empty {T} (sh : Shared T) (l : LockFreeStacc T) (x : T)
    (hc : l.cached_allocations = []) :
    push sh l x
      = ({ sh with heap := fun j => if j = sh.alloc then ⟨some x, sh.top⟩ else sh.heap j,
                   top := sh.alloc, alloc := sh.alloc + 1,
                   len := (sh.len + 1) % U64 }, l) := by
  simp [push, get_node, hc]

theorem pushAll_reps {T} (vs : List T) :
    ∀ (sh : Shared T) (l : LockFreeStacc T) (chain : List (Nat × Option T)),
      l.cached_allocations = [] →
      Reps sh.heap sh.top chain →
      (∀ q ∈ chain.map Prod.fst, q < sh.alloc) →
      1 ≤ sh.alloc →
      ∃ chain',
        Reps (pushAll sh l vs).1.heap (pushAll sh l vs).1.top chain' ∧
        chain'.map Prod.snd = vs.reverse.map some ++ chain.map Prod.snd ∧
        (∀ q ∈ chain'.map Prod.fst, q < (pushAll sh l vs).1.alloc) ∧
        1 ≤ (pushAll sh l vs).1.alloc ∧
        (pushAll sh l vs).2 = l := by
  induction vs with
  | nil =>
    intro sh l chain _ hr hb ha
    exact ⟨chain, hr, by simp, hb, ha, rfl⟩
  | cons x xs ih =>
    intro sh l chain hc hr hb ha
    rw [pushAll]
    rw [push_cache_empty sh l x hc]
    dsimp only
    set heap' : Nat → Node T := fun j => if j = sh.alloc then ⟨some x, sh.top⟩ else sh.heap j
      with hheap'
    have hchain0 : Reps heap' sh.alloc ((sh.alloc, some x) :: chain) := by
      have hold : Reps heap' sh.top chain := by
        refine reps_congr sh.heap heap' sh.top chain hr ?_
        intro q hq
        have : q < sh.alloc := hb q hq
        simp [hheap', Nat.ne_of_lt this]
      have hnext : Reps heap' (heap' sh.alloc).next chain := by
        have : (heap' sh.alloc).next = sh.top := by simp [hheap']
        rwa [this]
      have := @Reps.cons T heap' sh.alloc chain (Nat.one_le_iff_ne_zero.mp ha) hnext
      have hdata : (heap' sh.alloc).data = some x := by simp [hheap']
      rwa [hdata] at this
    have hb0 : ∀ q ∈ ((sh.alloc, some x) :: chain).map Prod.fst, q < sh.alloc + 1 := by
      intro q hq
      simp at hq
      rcases hq with rfl | hq
      · omega
      · have := hb q (by simpa using hq)
        omega
    obtain ⟨chain', h1, h2, h3, h4, h5⟩ :=
      ih { sh with heap := heap', top := sh.alloc, alloc := sh.alloc + 1,
                   len := (sh.len + 1) % U64 } l ((sh.alloc, some x) :: chain)
        hc hchain0 hb0 (by dsimp only; omega)
    refine ⟨chain', h1, ?_, h3, h4, h5⟩
    rw [h2]
    simp

theorem reps_cons_inv {T} (heap : Nat → Node T) (p : Nat) (id : Nat) (d : Option T)
    (rest : List (Nat × Option T)) (h : Reps heap p ((id, d) :: rest)) :
    p = id ∧ d = (heap id).data ∧ id ≠ 0 ∧ Reps heap (heap id).next rest := by
  cases h with
  | cons _ _ hid hr => exact ⟨rfl, rfl, hid, hr⟩

theorem pop_chain {T} (sh : Shared T) (l : LockFreeStacc T)
    (id : Nat) (d : Option T) (rest : List (Nat × Option T))
    (h : Reps sh.heap sh.top ((id, d) :: rest)) :
    (pop sh l).1 = some d ∧
    (pop sh l).2.1.heap = sh.heap ∧
    (pop sh l).2.1.top = (sh.heap id).next ∧
    Reps (pop sh l).2.1.heap (pop sh l).2.1.top rest ∧
    (pop sh l).2.1.alloc = sh.alloc := by
  obtain ⟨h1, h2, h3, h4⟩ := reps_cons_inv sh.heap sh.top id d rest h
  subst h2
  refine ⟨?_, ?_, ?_, ?_, ?_⟩
  · simp [pop, h1, h3]
  · simp [pop, h1, h3]
  · simp [pop, h1, h3]
  · have hgoal : (pop sh l).2.1.heap = sh.heap ∧ (pop sh l).2.1.top = (sh.heap id).next := by
      constructor <;> simp [pop, h1, h3]
    rw [hgoal.1, hgoal.2]
    exact h4
  · simp [pop, h1, h3]

theorem pop_empty_hp {T} (sh : Shared T) (l : LockFreeStacc T) (h : sh.top = 0) :
    (pop sh l).1 = none := by
  simp [pop, h]

theorem popN_drain_hp {T} (chain : List (Nat × Option T)) :
    ∀ (sh : Shared T) (l : LockFreeStacc T), Reps sh.heap sh.top chain →
      (popN chain.length sh l).1 = chain.map (fun p => some p.2) ∧
      (popN chain.length sh l).2.1.top = 0 := by
  induction chain with
  | nil =>
    intro sh l h
    exact ⟨rfl, reps_nil_eq sh.heap sh.top h⟩
  | cons hd tl ih =>
    intro sh l h
    obtain ⟨id, d⟩ := hd
    obtain ⟨e1, _, _, e4, _⟩ := pop_chain sh l id d tl h
    rw [List.length_cons, popN]
    have := ih (pop sh l).2.1 (pop sh l).2.2 e4
    dsimp only
    rw [e1, this.1]
    exact ⟨by simp, this.2⟩

end StaccLockfreeHp

/-- C8: in the hazard-pointer variant, `retire_node` triggers a scan exactly
when the retired list reaches `R = 42` entries; the scan collects the
non-null published hazard addresses, sorts them, removes from the retired
list exactly those retired nodes whose address is absent from the published
set (recycling them, in order, into the thread's node cache), while retired
nodes whose address is published remain retired. -/
theorem claim8_hp_scan :
    ∀ (T : Type) (sh : StaccLockfreeHp.Shared T)
      (l : StaccLockfreeHp.LockFreeStacc T) (p : Nat),
      StaccLockfreeHp.R = 42 ∧
      (StaccLockfreeHp.scan sh l).retired_pointers
        = l.retired_pointers.filter
            (fun x => (sh.hazard_pointers.filter (fun q => !(q == 0))).contains x) ∧
      (StaccLockfreeHp.scan sh l).cached_allocations
        = l.cached_allocations
          ++ l.retired_pointers.filter
              (fun x => !((sh.hazard_pointers.filter (fun q => !(q == 0))).contains x)) ∧
      (l.retired_pointers.length + 1 ≥ StaccLockfreeHp.R →
        StaccLockfreeHp.retire_node sh l p
          = StaccLockfreeHp.scan sh
              { l with retired_pointers := l.retired_pointers ++ [p] }) ∧
      (l.retired_pointers.length + 1 < StaccLockfreeHp.R →
        StaccLockfreeHp.retire_node sh l p
          = { l with retired_pointers := l.retired_pointers ++ [p] }) := by
  intro T sh l p
  obtain ⟨hs1, hs2, _⟩ := StaccLockfreeHp.scan_spec sh l
  refine ⟨rfl, hs1, hs2, ?_, ?_⟩
  · intro h
    unfold StaccLockfreeHp.retire_node
    rw [if_pos (by simp; omega)]
  · intro h
    unfold StaccLockfreeHp.retire_node
    rw [if_neg (by simp; omega)]

/-- Witness for C8: a 41-entry retired list plus one retirement reaches
`R = 42` and triggers the scan; address 9 is published in hazard slot 1 and
stays retired, while the just-retired address 7 is absent from the
published set and is recycled into the cache. -/
theorem claim8_witness :
    StaccLockfreeHp.retire_node
        (⟨0, fun _ => ⟨none, 0⟩, 1, (List.replicate 32 0).set 1 9, [], 1, 0⟩ :
          StaccLockfreeHp.Shared Nat)
        (⟨List.replicate 41 9, 0, []⟩ : StaccLockfreeHp.LockFreeStacc Nat) 7
      = ⟨List.replicate 41 9, 0, [7]⟩ := by
  have h := claim8_hp_scan Nat
    ⟨0, fun _ => ⟨none, 0⟩, 1, (List.replicate 32 0).set 1 9, [], 1, 0⟩
    ⟨List.replicate 41 9, 0, []⟩ 7
  rw [h.2.2.2.1 (by decide)]
  decide

namespace StaccLockfreeEbr

theorem limbo_update_spec (prev next : Nat) (l : Local) (h3 : l.limbo.length = 3) :
    (limbo_update prev next l).garbage
      = l.garbage ++ (l.limbo.take (min (next - prev) 3)).flatten ∧
    (limbo_update prev next l).limbo
      = l.limbo.drop (min (next - prev) 3) ++ List.replicate (min (next - prev) 3) [] := by
  obtain ⟨a, b, c, hl⟩ := List.length_eq_three.mp h3
  rcases n4 : next - prev with _ | n
  · have hd : min (next - prev) 3 = 0 := by omega
    simp [limbo_update, List.rotateLeft, hl, hd]
  rcases n with _ | n
  · have hd : min (next - prev) 3 = 1 := by omega
    simp [limbo_update, List.rotateLeft, hl, hd]
  rcases n with _ | n
  · have hd : min (next - prev) 3 = 2 := by omega
    simp [limbo_update, List.rotateLeft, hl, hd]
  · have hd : min (next - prev) 3 = 3 := by omega
    simp [limbo_update, List.rotateLeft, hl, hd]

theorem inv_step (p e0 e e1 : Nat) (l : Local) (he : e ≤ e1)
    (h : EbrInv p e0 e l) : EbrInv p e0 e1 (limbo_update e e1 l) := by
  obtain ⟨h3, hg, hb⟩ := h
  have hb0 := hb 0 (by omega)
  have hb1 := hb 1 (by omega)
  have hb2 := hb 2 (by omega)
  obtain ⟨tid, limbo, gar, alloc⟩ := l
  obtain ⟨a, b, c, hl⟩ := List.length_eq_three.mp h3
  subst hl
  dsimp only at hg hb0 hb1 hb2
  simp only [List.getD_cons_zero, List.getD_cons_succ] at hb0 hb1 hb2
  have hspec := limbo_update_spec e e1 ⟨tid, [a, b, c], gar, alloc⟩ (by simp)
  rcases n4 : e1 - e with _ | n
  · have hd : min (e1 - e) 3 = 0 := by omega
    rw [hd] at hspec
    obtain ⟨hgar, hlim⟩ := hspec
    refine ⟨by rw [hlim]; simp, ?_, ?_⟩
    · rw [hgar]
      simp only [List.take_zero, List.flatten_nil, List.append_nil]
      intro hp
      have := hg hp
      omega
    · rw [hlim]
      intro i hi hp
      interval_cases i <;> simp only [List.drop_zero, List.replicate_zero,
        List.append_nil, List.getD_cons_zero, List.getD_cons_succ] at hp
      · have := hb0 hp; omega
      · have := hb1 hp; omega
      · have := hb2 hp; omega
  rcases n with _ | n
  · have hd : min (e1 - e) 3 = 1 := by omega
    rw [hd] at hspec
    obtain ⟨hgar, hlim⟩ := hspec
    have he1 : e + 1 ≤ e1 := by omega
    refine ⟨by rw [hlim]; simp, ?_, ?_⟩
    · rw [hgar]
      intro hp
      simp only [List.mem_append] at hp
      rcases hp with hp | hp
      · have := hg hp; omega
      · simp at hp
        have := hb0 hp; omega
    · rw [hlim]
      intro i hi hp
      interval_cases i <;>
        simp only [List.drop_succ_cons, List.drop_zero, List.getD_cons_zero,
          List.getD_cons_succ, List.getD] at hp
      · have := hb1 hp; omega
      · have := hb2 hp; omega
      · simp at hp
  rcases n with _ | n
  · have hd : min (e1 - e) 3 = 2 := by omega
    rw [hd] at hspec
    obtain ⟨hgar, hlim⟩ := hspec
    have he2 : e + 2 ≤ e1 := by omega
    refine ⟨by rw [hlim]; simp, ?_, ?_⟩
    · rw [hgar]
      intro hp
      simp only [List.mem_append] at hp
      rcases hp with hp | hp
      · have := hg hp; omega
      · simp at hp
        rcases hp with hp | hp
        · have := hb0 hp; omega
        · have := hb1 hp; omega
    · rw [hlim]
      intro i hi hp
      interval_cases i <;>
        simp only [List.drop_succ_cons, List.drop_zero, List.getD_cons_zero,
          List.getD_cons_succ, List.getD] at hp
      · have := hb2 hp; omega
      · simp at hp
      · simp at hp
  · have hd : min (e1 - e) 3 = 3 := by omega
    rw [hd] at hspec
    obtain ⟨hgar, hlim⟩ := hspec
    have he3 : e + 3 ≤ e1 := by omega
    refine ⟨by rw [hlim]; simp, ?_, ?_⟩
    · rw [hgar]
      intro hp
      simp only [List.mem_append] at hp
      rcases hp with hp | hp
      · have := hg hp; omega
      · simp at hp
        rcases hp with hp | hp | hp
        · have := hb0 hp; omega
        · have := hb1 hp; omega
        · have := hb2 hp; omega
    · rw [hlim]
      intro i hi hp
      interval_cases i <;>
        simp only [List.drop_succ_cons, List.drop_zero, List.getD_cons_zero,
          List.getD_cons_succ, List.getD] at hp <;> simp at hp

theorem inv_run (p e0 : Nat) (es : List Nat) :
    ∀ (e : Nat) (l : Local), EbrInv p e0 e l → List.Chain (· ≤ ·) e es →
      EbrInv p e0 (runEntries e es l).1 (runEntries e es l).2 := by
  induction es with
  | nil => intro e l h _; exact h
  | cons e1 rest ih =>
    intro e l h hc
    cases hc with
    | cons hle hc2 =>
      rw [runEntries]
      exact ih e1 (limbo_update e e1 l) (inv_step p e0 e e1 l hle h) hc2

theorem end_shared_section_top {T} (s : Shared T) (tid : Nat) :
    (end_shared_section s tid).top = s.top := rfl

theorem sss_top {T} (s : Shared T) (tid : Nat) :
    (start_shared_section s tid).2.top = s.top := by
  simp only [start_shared_section]
  split <;> rfl

theorem mark_use_top {T} (s : Shared T) (l : Local) :
    (mark_use s l).1.top = s.top := sss_top s l.thread_id

theorem pop_spec {T} (s : Shared T) (l : Local) :
    (pop s l).1 = s.top.head?.map Prod.snd ∧ (pop s l).2.1.top = s.top.tail := by
  have hm : (mark_use s l).1.top = s.top := mark_use_top s l
  cases hs : s.top with
  | nil =>
    rw [hs] at hm
    simp [pop, hm]
  | cons hd tl =>
    obtain ⟨id, x⟩ := hd
    rw [hs] at hm
    simp [pop, hm, defer, end_shared_section]

theorem push_top {T} (s : Shared T) (l : Local) (x : T) :
    (push s l x).1.top.map Prod.snd = x :: s.top.map Prod.snd := by
  unfold push get_node
  cases l.garbage.getLast? <;> simp

theorem pushAll_top {T} (vs : List T) :
    ∀ (s : Shared T) (l : Local),
      (pushAll s l vs).1.top.map Prod.snd = vs.reverse ++ s.top.map Prod.snd := by
  induction vs with
  | nil => intro s l; simp [pushAll]
  | cons x xs ih =>
    intro s l
    rw [pushAll]
    rw [ih]
    rw [show (push s l x).1.top.map Prod.snd = x :: s.top.map Prod.snd from push_top s l x]
    simp

theorem popN_drain_ebr {T} (chain : List (Nat × T)) :
    ∀ (s : Shared T) (l : Local), s.top = chain →
      (popN chain.length s l).1 = chain.map (fun q => some q.2) ∧
      (popN chain.length s l).2.1.top = [] := by
  induction chain with
  | nil => intro s l h; exact ⟨rfl, h⟩
  | cons hd tl ih =>
    intro s l h
    obtain ⟨hv, ht⟩ := pop_spec s l
    rw [h] at hv ht
    rw [List.length_cons, popN]
    have := ih (pop s l).2.1 (pop s l).2.2 (by rw [ht]; rfl)
    dsimp only
    rw [hv, this.1]
    exact ⟨by simp, this.2⟩

end StaccLockfreeEbr

namespace Stacc

theorem popSwapDrain {T} (xs : List T) (pad zs : List (Option T)) (s : StaccInner T)
    (hpo : s.poppers = ⟨zs, 0⟩)
    (hpu : s.pushers = ⟨xs.map some ++ pad, (xs.length : Int)⟩)
    (hne : xs ≠ []) :
    popSeq 2 xs.length s
      = some (xs.reverse.map (fun v => some (some v)),
              ⟨⟨xs.map some ++ pad, 0⟩, ⟨zs, 0⟩⟩) := by
  rcases List.eq_nil_or_concat xs with rfl | ⟨t, y, rfl⟩
  · exact absurd rfl hne
  rw [List.concat_eq_append] at hpu hne ⊢
  have hlen : (t ++ [y]).length = t.length + 1 := by simp
  have hpop1 : StaccInner.pop 2 s
      = some (some (some y),
              ⟨⟨(t ++ [y]).map some ++ pad, ((t ++ [y]).length : Int) - 1⟩, ⟨zs, 0⟩⟩) := by
    rw [show (2:Nat) = 1 + 1 from rfl]
    rw [StaccInner.pop_swap 1 s zs hpo (by rw [hpu]; simp [clampNat]; positivity)]
    have hsw : s.swap_stacks = ⟨⟨(t ++ [y]).map some ++ pad, ((t ++ [y]).length : Int)⟩, ⟨zs, 0⟩⟩ := by
      obtain ⟨po, pu⟩ := s
      cases hpo
      cases hpu
      rfl
    rw [hsw]
    rw [StaccInner.pop_direct 1 _ ((t ++ [y]).map some ++ pad) ((t ++ [y]).length : Int)
      le_rfl rfl (by simp)]
    have hval : ((t ++ [y]).map some ++ pad).getD
        ((((t ++ [y]).length : Int) - 1).toNat) none = some y := by
      have hidx : (((t ++ [y]).length : Int) - 1).toNat = t.length := by simp
      rw [hidx, List.map_append]
      rw [show (List.map some t ++ List.map some [y]) ++ pad
            = List.map some t ++ (List.map some [y] ++ pad) by simp]
      rw [List.getD_append_right _ _ _ _ (by simp)]
      simp
    rw [hval]
  rw [hlen, popSeq, hpop1]
  dsimp only
  have htail : popSeq 2 t.length
      (⟨⟨(t ++ [y]).map some ++ pad, ((t ++ [y]).length : Int) - 1⟩, ⟨zs, 0⟩⟩ : StaccInner T)
      = some (t.reverse.map (fun v => some (some v)),
              ⟨⟨(t ++ [y]).map some ++ pad, 0⟩, ⟨zs, 0⟩⟩) := by
    have hd := popSeq_drain 1 t (some y :: pad)
      (⟨⟨(t ++ [y]).map some ++ pad, ((t ++ [y]).length : Int) - 1⟩, ⟨zs, 0⟩⟩ : StaccInner T)
      (by simp)
    simp only [List.map_append] at hd ⊢
    simpa using hd
  rw [htail]
  simp [List.reverse_concat]

theorem dbLifo {T} (C : Nat) (vs : List T) (hle : vs.length ≤ C) :
    pushSeq 2 vs (StaccInner.new T C)
      = some (List.replicate vs.length none,
          ⟨⟨List.replicate C none, 0⟩,
           ⟨vs.map some ++ List.replicate (C - vs.length) none, (vs.length : Int)⟩⟩) ∧
    popSeq 2 vs.length
        (⟨⟨List.replicate C none, 0⟩,
          ⟨vs.map some ++ List.replicate (C - vs.length) none, (vs.length : Int)⟩⟩ : StaccInner T)
      = some (vs.reverse.map (fun v => some (some v)),
          ⟨⟨vs.map some ++ List.replicate (C - vs.length) none, 0⟩,
           ⟨List.replicate C none, 0⟩⟩) ∧
    StaccInner.pop 2
        (⟨⟨vs.map some ++ List.replicate (C - vs.length) none, 0⟩,
          ⟨List.replicate C none, 0⟩⟩ : StaccInner T)
      = some (none, ⟨⟨vs.map some ++ List.replicate (C - vs.length) none, 0⟩,
           ⟨List.replicate C none, 0⟩⟩) := by
  refine ⟨?_, ?_, ?_⟩
  · have hr := pushSeq_run 1 vs (StaccInner.new T C) (List.replicate C none) 0
      rfl (by simp [hle])
    have hw : writeFrom (List.replicate C (none : Option T)) 0 vs
        = vs.map some ++ List.replicate (C - vs.length) none := by
      have := writeFrom_fill vs [] C hle
      simpa using this
    rw [hr, hw]
    norm_num
    rfl
  · cases vs with
    | nil => simp [popSeq]
    | cons v vs' =>
      exact popSwapDrain (v :: vs') (List.replicate (C - (v :: vs').length) none)
        (List.replicate C none) _ rfl rfl (by simp)
  · exact StaccInner.pop_reject 2 _ (vs.map some ++ List.replicate (C - vs.length) none)
      (by omega) rfl (by simp [clampNat])

end Stacc

/-- C1 (code evaluation at the failing input): in `start_shared_section`
the epoch-advance CAS is attempted exactly when NOT every active
participant has been observed at the current epoch — the inverse of the
claimed guard.  Concretely: with global epoch 1 and participant 1 active
with recorded epoch 0 (differing from the global epoch), thread 0's entry
advances the global epoch to 2; while from the fresh state, where every
active participant matches the current epoch, no advance ever happens. -/
theorem claim1_epoch_advance_guard_inverted :
    (StaccLockfreeEbr.start_shared_section
        (⟨[], (List.replicate 32 ⟨0, false⟩).set 1 ⟨0, true⟩, 1, 0⟩ :
          StaccLockfreeEbr.Shared Nat) 0).2.global_epoch = 2 ∧
    ((⟨[], (List.replicate 32 ⟨0, false⟩).set 1 ⟨0, true⟩, 1, 0⟩ :
        StaccLockfreeEbr.Shared Nat).threads.getD 1
          StaccLockfreeEbr.ThreadLocal.new).is_active = true ∧
    ((⟨[], (List.replicate 32 ⟨0, false⟩).set 1 ⟨0, true⟩, 1, 0⟩ :
        StaccLockfreeEbr.Shared Nat).threads.getD 1
          StaccLockfreeEbr.ThreadLocal.new).current_epoch = 0 ∧
    (⟨[], (List.replicate 32 ⟨0, false⟩).set 1 ⟨0, true⟩, 1, 0⟩ :
        StaccLockfreeEbr.Shared Nat).global_epoch = 1 ∧
    (StaccLockfreeEbr.start_shared_section
        (StaccLockfreeEbr.Shared.new Nat) 0).2.global_epoch
      = (StaccLockfreeEbr.Shared.new Nat).global_epoch := by decide

/-- C4 (code evaluation at the failing input): `Local::new` hard-codes
thread slot 0 without consuming the shared counter, so the first clone
also receives slot 0 — a duplicate of the original handle's slot; and
cloning performs no capacity check: the 33rd handle receives slot 32 =
MAX_THREADS and `clone` returns normally (the out-of-bounds panic would
only occur later, at the slot's first use). -/
theorem claim4_clone_slot_duplicate_and_unchecked :
    (StaccLockfreeEbr.cloneHandle (StaccLockfreeEbr.LocalNew Nat).1).2.thread_id
        = (StaccLockfreeEbr.LocalNew Nat).2.thread_id ∧
    (StaccLockfreeEbr.LocalNew Nat).2.thread_id = 0 ∧
    (StaccLockfreeEbr.cloneN 33 (StaccLockfreeEbr.LocalNew Nat)).2.thread_id
        = StaccLockfreeEbr.MAX_THREADS ∧
    StaccLockfreeEbr.MAX_THREADS = 32 := by decide

/-- C5 (code evaluation at the failing input): dropping an EBR handle that
still holds a retired node (id 7) in its last limbo bucket frees nothing
and leaks the node — the `Vec<Box<_>>` garbage freed at drop is empty,
while the limbo pointer is in no shared structure (`Shared` has no
deferred list; it is commented out in the source) and is never freed. -/
theorem claim5_ebr_drop_leaks_limbo :
    (StaccLockfreeEbr.dropHandle (StaccLockfreeEbr.Shared.new Nat)
        ⟨0, [[], [], [7]], [], 1⟩).2.1 = [] ∧
    (StaccLockfreeEbr.dropHandle (StaccLockfreeEbr.Shared.new Nat)
        ⟨0, [[], [], [7]], [], 1⟩).2.2 = [7] := by decide

/-- C6: on each entry to a shared section exactly the first
`min(observed epoch advance, 3)` limbo buckets are drained into the
reusable garbage and the buckets are rotated by that amount; consequently
a node deferred while the thread's observed epoch was `e0` can enter the
reusable garbage only at an entry whose observed global epoch is at least
`e0 + 2` (in fact at least `e0 + 3`). -/
theorem claim6_ebr_limbo_reclamation :
    (∀ (prev next : Nat) (l : StaccLockfreeEbr.Local), l.limbo.length = 3 →
      (StaccLockfreeEbr.limbo_update prev next l).garbage
          = l.garbage ++ (l.limbo.take (min (next - prev) 3)).flatten ∧
      (StaccLockfreeEbr.limbo_update prev next l).limbo
          = l.limbo.drop (min (next - prev) 3)
            ++ List.replicate (min (next - prev) 3) []) ∧
    (∀ (p e0 : Nat) (es : List Nat) (l : StaccLockfreeEbr.Local),
      l.limbo.length = 3 → List.Chain (· ≤ ·) e0 es →
      p ∉ l.garbage → p ∉ l.limbo.getD 0 [] → p ∉ l.limbo.getD 1 [] →
      p ∈ (StaccLockfreeEbr.runEntries e0 es l).2.garbage →
      e0 + 2 ≤ (StaccLockfreeEbr.runEntries e0 es l).1) := by
  constructor
  · intro prev next l h3
    exact StaccLockfreeEbr.limbo_update_spec prev next l h3
  · intro p e0 es l h3 hc hg h0 h1 hp
    have hinv : StaccLockfreeEbr.EbrInv p e0 e0 l := by
      refine ⟨h3, fun hx => absurd hx hg, ?_⟩
      intro i hi hx
      interval_cases i
      · exact absurd hx h0
      · exact absurd hx h1
      · omega
    have hrun := StaccLockfreeEbr.inv_run p e0 es e0 l hinv hc
    have h4 := hrun.2.1 hp
    omega

/-- Witness for C6: an entry observing an epoch advance of 2 drains the
first two buckets and rotates; and node 7, deferred at epoch 0 into the
last bucket, reaches the garbage across entries at epochs 1 and 3 — the
draining entry's observed epoch 3 is at least 0 + 2. -/
theorem claim6_witness :
    ((StaccLockfreeEbr.limbo_update 0 2 ⟨0, [[5], [6], [7]], [], 1⟩).garbage
        = [] ++ ([[5], [6], [7]].take (min (2 - 0) 3)).flatten ∧
      (StaccLockfreeEbr.limbo_update 0 2 ⟨0, [[5], [6], [7]], [], 1⟩).limbo
        = [[5], [6], [7]].drop (min (2 - 0) 3) ++ List.replicate (min (2 - 0) 3) []) ∧
    (7 ∈ (StaccLockfreeEbr.runEntries 0 [1, 3] ⟨0, [[], [], [7]], [], 1⟩).2.garbage ∧
      0 + 2 ≤ (StaccLockfreeEbr.runEntries 0 [1, 3] ⟨0, [[], [], [7]], [], 1⟩).1) :=
  ⟨claim6_ebr_limbo_reclamation.1 0 2 ⟨0, [[5], [6], [7]], [], 1⟩ (by decide),
   by decide,
   claim6_ebr_limbo_reclamation.2 7 0 [1, 3] ⟨0, [[], [], [7]], [], 1⟩
     (by decide)
     (List.Chain.cons (by decide) (List.Chain.cons (by decide) List.Chain.nil))
     (by decide) (by decide) (by decide) (by decide)⟩

/-- C3 (amended): for the three lock-free linked variants
(reference-counted, hazard-pointer, epoch-based), pushing `vs` sequentially
on one thread from a fresh stack and then popping `vs.length` times yields
exactly the values in reverse order, and any further pop returns empty.
For the bounded double-buffer variant the same holds whenever
`vs.length ≤ C` (its per-buffer capacity); across a buffer swap it is not
LIFO (see the counterexample). -/
theorem claim3_amended :
    ∀ (T : Type) (vs : List T),
      ((StaccLockfree.popN vs.length
          (StaccLockfree.pushAll (StaccLockfree.Stacc.new T) vs)).1
        = vs.reverse.map some ∧
       ((StaccLockfree.popN vs.length
          (StaccLockfree.pushAll (StaccLockfree.Stacc.new T) vs)).2.pop).1 = none) ∧
      ((StaccLockfreeHp.popN vs.length
          (StaccLockfreeHp.pushAll (StaccLockfreeHp.newState T).1
            (StaccLockfreeHp.newState T).2 vs).1
          (StaccLockfreeHp.pushAll (StaccLockfreeHp.newState T).1
            (StaccLockfreeHp.newState T).2 vs).2).1
        = vs.reverse.map (fun v => some (some v)) ∧
       (StaccLockfreeHp.pop
          (StaccLockfreeHp.popN vs.length
            (StaccLockfreeHp.pushAll (StaccLockfreeHp.newState T).1
              (StaccLockfreeHp.newState T).2 vs).1
            (StaccLockfreeHp.pushAll (StaccLockfreeHp.newState T).1
              (StaccLockfreeHp.newState T).2 vs).2).2.1
          (StaccLockfreeHp.popN vs.length
            (StaccLockfreeHp.pushAll (StaccLockfreeHp.newState T).1
              (StaccLockfreeHp.newState T).2 vs).1
            (StaccLockfreeHp.pushAll (StaccLockfreeHp.newState T).1
              (StaccLockfreeHp.newState T).2 vs).2).2.2).1 = none) ∧
      ((StaccLockfreeEbr.popN vs.length
          (StaccLockfreeEbr.pushAll (StaccLockfreeEbr.LocalNew T).1
            (StaccLockfreeEbr.LocalNew T).2 vs).1
          (StaccLockfreeEbr.pushAll (StaccLockfreeEbr.LocalNew T).1
            (StaccLockfreeEbr.LocalNew T).2 vs).2).1
        = vs.reverse.map some ∧
       (StaccLockfreeEbr.pop
          (StaccLockfreeEbr.popN vs.length
            (StaccLockfreeEbr.pushAll (StaccLockfreeEbr.LocalNew T).1
              (StaccLockfreeEbr.LocalNew T).2 vs).1
            (StaccLockfreeEbr.pushAll (StaccLockfreeEbr.LocalNew T).1
              (StaccLockfreeEbr.LocalNew T).2 vs).2).2.1
          (StaccLockfreeEbr.popN vs.length
            (StaccLockfreeEbr.pushAll (StaccLockfreeEbr.LocalNew T).1
              (StaccLockfreeEbr.LocalNew T).2 vs).1
            (StaccLockfreeEbr.pushAll (StaccLockfreeEbr.LocalNew T).1
              (StaccLockfreeEbr.LocalNew T).2 vs).2).2.2).1 = none) ∧
      (∀ C : Nat, vs.length ≤ C →
        Stacc.pushSeq 2 vs (Stacc.StaccInner.new T C)
          = some (List.replicate vs.length none,
              ⟨⟨List.replicate C none, 0⟩,
               ⟨vs.map some ++ List.replicate (C - vs.length) none, (vs.length : Int)⟩⟩) ∧
        Stacc.popSeq 2 vs.length
            (⟨⟨List.replicate C none, 0⟩,
              ⟨vs.map some ++ List.replicate (C - vs.length) none,
               (vs.length : Int)⟩⟩ : Stacc.StaccInner T)
          = some (vs.reverse.map (fun v => some (some v)),
              ⟨⟨vs.map some ++ List.replicate (C - vs.length) none, 0⟩,
               ⟨List.replicate C none, 0⟩⟩) ∧
        Stacc.StaccInner.pop 2
            (⟨⟨vs.map some ++ List.replicate (C - vs.length) none, 0⟩,
              ⟨List.replicate C none, 0⟩⟩ : Stacc.StaccInner T)
          = some (none,
              ⟨⟨vs.map some ++ List.replicate (C - vs.length) none, 0⟩,
               ⟨List.replicate C none, 0⟩⟩)) := by
  intro T vs
  refine ⟨?_, ?_, ?_, ?_⟩
  · -- reference-counted variant
    have hh : (StaccLockfree.pushAll (StaccLockfree.Stacc.new T) vs).inner.head.map Prod.snd
        = vs.reverse := by
      have := StaccLockfree.pushAll_head vs (StaccLockfree.Stacc.new T)
      simpa [StaccLockfree.Stacc.new] using this
    have hlen : (StaccLockfree.pushAll (StaccLockfree.Stacc.new T) vs).inner.head.length
        = vs.length := by
      have := congrArg List.length hh
      simpa using this
    obtain ⟨h1, h2⟩ := StaccLockfree.popN_drain
      (StaccLockfree.pushAll (StaccLockfree.Stacc.new T) vs).inner.head
      (StaccLockfree.pushAll (StaccLockfree.Stacc.new T) vs) rfl
    rw [hlen] at h1 h2
    constructor
    · rw [h1, ← hh, List.map_map]
      rfl
    · rw [StaccLockfree.pop_empty _ h2]
  · -- hazard-pointer variant
    obtain ⟨chain', hreps, hsnd, _, _, _⟩ :=
      StaccLockfreeHp.pushAll_reps vs (StaccLockfreeHp.newState T).1
        (StaccLockfreeHp.newState T).2 [] rfl StaccLockfreeHp.Reps.nil
        (by simp) le_rfl
    have hlen' : chain'.length = vs.length := by
      have := congrArg List.length hsnd
      simpa using this
    obtain ⟨hres, htop⟩ := StaccLockfreeHp.popN_drain_hp chain' _ _ hreps
    rw [hlen'] at hres htop
    constructor
    · rw [hres]
      have := congrArg (List.map some) hsnd
      simpa [List.map_map, Function.comp] using this
    · exact StaccLockfreeHp.pop_empty_hp _ _ htop
  · -- epoch-based variant
    have hh : (StaccLockfreeEbr.pushAll (StaccLockfreeEbr.LocalNew T).1
        (StaccLockfreeEbr.LocalNew T).2 vs).1.top.map Prod.snd = vs.reverse := by
      have := StaccLockfreeEbr.pushAll_top vs (StaccLockfreeEbr.LocalNew T).1
        (StaccLockfreeEbr.LocalNew T).2
      simpa [StaccLockfreeEbr.LocalNew, StaccLockfreeEbr.Shared.new] using this
    have hlen : (StaccLockfreeEbr.pushAll (StaccLockfreeEbr.LocalNew T).1
        (StaccLockfreeEbr.LocalNew T).2 vs).1.top.length = vs.length := by
      have := congrArg List.length hh
      simpa using this
    obtain ⟨h1, h2⟩ := StaccLockfreeEbr.popN_drain_ebr
      (StaccLockfreeEbr.pushAll (StaccLockfreeEbr.LocalNew T).1
        (StaccLockfreeEbr.LocalNew T).2 vs).1.top
      (StaccLockfreeEbr.pushAll (StaccLockfreeEbr.LocalNew T).1
        (StaccLockfreeEbr.LocalNew T).2 vs).1
      (StaccLockfreeEbr.pushAll (StaccLockfreeEbr.LocalNew T).1
        (StaccLockfreeEbr.LocalNew T).2 vs).2 rfl
    rw [hlen] at h1 h2
    constructor
    · rw [h1, ← hh, List.map_map]
      rfl
    · have := (StaccLockfreeEbr.pop_spec
        (StaccLockfreeEbr.popN vs.length
          (StaccLockfreeEbr.pushAll (StaccLockfreeEbr.LocalNew T).1
            (StaccLockfreeEbr.LocalNew T).2 vs).1
          (StaccLockfreeEbr.pushAll (StaccLockfreeEbr.LocalNew T).1
            (StaccLockfreeEbr.LocalNew T).2 vs).2).2.1
        (StaccLockfreeEbr.popN vs.length
          (StaccLockfreeEbr.pushAll (StaccLockfreeEbr.LocalNew T).1
            (StaccLockfreeEbr.LocalNew T).2 vs).1
          (StaccLockfreeEbr.pushAll (StaccLockfreeEbr.LocalNew T).1
            (StaccLockfreeEbr.LocalNew T).2 vs).2).2.2).1
      rw [h2] at this
      simpa using this
  · -- bounded double-buffer variant
    intro C hle
    exact Stacc.dbLifo C vs hle

/-- Witness for C3 (amended) at `vs = [1, 2]` (and capacity `C = 2` for the
double-buffer part): every variant pops `2` then `1`, in reverse push
order. -/
theorem claim3_amended_witness :
    (StaccLockfree.popN 2 (StaccLockfree.pushAll (StaccLockfree.Stacc.new Nat) [1, 2])).1
        = [some 2, some 1] ∧
    (StaccLockfreeHp.popN 2
        (StaccLockfreeHp.pushAll (StaccLockfreeHp.newState Nat).1
          (StaccLockfreeHp.newState Nat).2 [1, 2]).1
        (StaccLockfreeHp.pushAll (StaccLockfreeHp.newState Nat).1
          (StaccLockfreeHp.newState Nat).2 [1, 2]).2).1
        = [some (some 2), some (some 1)] ∧
    (StaccLockfreeEbr.popN 2
        (StaccLockfreeEbr.pushAll (StaccLockfreeEbr.LocalNew Nat).1
          (StaccLockfreeEbr.LocalNew Nat).2 [1, 2]).1
        (StaccLockfreeEbr.pushAll (StaccLockfreeEbr.LocalNew Nat).1
          (StaccLockfreeEbr.LocalNew Nat).2 [1, 2]).2).1
        = [some 2, some 1] ∧
    Stacc.popSeq 2 2
        (⟨⟨[none, none], 0⟩, ⟨[some 1, some 2], 2⟩⟩ : Stacc.StaccInner Nat)
      = some ([some (some 2), some (some 1)],
          ⟨⟨[some 1, some 2], 0⟩, ⟨[none, none], 0⟩⟩) := by
  have h := claim3_amended Nat [1, 2]
  exact ⟨h.1.1, h.2.1.1, h.2.2.1.1, (h.2.2.2 2 (by decide)).2.1⟩
